import Mathlib

/-!
Verification development for the Stagify floorplan pipeline
(`pdfGenerate`, its grouping loop and worker pool, `normalizeRoomName`,
and `outputMerge`).  The JavaScript source is shallowly embedded:
strings are Lean `String`s, JavaScript truthiness is modelled explicitly,
the cooperative worker pool is a step relation driven by an explicit
schedule (each step is one synchronous segment of a worker between two
`await` suspension points), and fallible code returns `Except`.
-/

namespace Stagify

instance {ε : Type u} {α : Type v} [DecidableEq ε] [DecidableEq α] :
    DecidableEq (Except ε α) := fun a b =>
  match a, b with
  | .error e1, .error e2 =>
    if h : e1 = e2 then isTrue (by subst h; rfl)
    else isFalse (by intro hh; injection hh; contradiction)
  | .error _, .ok _ => isFalse (by intro hh; exact Except.noConfusion hh)
  | .ok _, .error _ => isFalse (by intro hh; exact Except.noConfusion hh)
  | .ok a1, .ok a2 =>
    if h : a1 = a2 then isTrue (by subst h; rfl)
    else isFalse (by intro hh; injection hh; contradiction)

/-- JavaScript truthiness of a nullable string: `null` and `""` are falsy. -/
def jsTruthy : Option String → Bool
  | none => false
  | some s => !(s == "")

/-- JavaScript `a || b` on nullable strings: `a` when truthy, else `b` as is. -/
def jsOr (a b : Option String) : Option String :=
  if jsTruthy a then a else b

/-- JavaScript `a || b || null` on nullable strings: first truthy operand, else `null`. -/
def jsOrNull (a b : Option String) : Option String :=
  if jsTruthy a then a else if jsTruthy b then b else none

/-- The character class `[a-z0-9]` (by code point, as the regex engine sees it). -/
def isLowerAlnum (c : Char) : Bool :=
  (97 ≤ c.toNat && c.toNat ≤ 122) || (48 ≤ c.toNat && c.toNat ≤ 57)

/-- The JavaScript whitespace class `\s`, restricted to the ASCII range. -/
def isJsSpace (c : Char) : Bool :=
  c == ' ' || c == '\t' || c == '\n' || c == '\r' || c == '\x0b' || c == '\x0c'

/-- ASCII fragment of JavaScript `String.prototype.toLowerCase`. -/
def jsToLower (c : Char) : Char :=
  if 65 ≤ c.toNat && c.toNat ≤ 90 then Char.ofNat (c.toNat + 32) else c

/-- ASCII fragment of JavaScript `String.prototype.toUpperCase` on one character. -/
def jsToUpper (c : Char) : Char :=
  if 97 ≤ c.toNat && c.toNat ≤ 122 then Char.ofNat (c.toNat - 32) else c

/-- Regex `replace(/P+/g, " ")`: each maximal run of characters satisfying `p`
becomes a single space.  The boolean argument records whether the previous
character was inside a run. -/
def collapseRuns (p : Char → Bool) : List Char → Bool → List Char
  | [], _ => []
  | c :: rest, inRun =>
    if p c then
      if inRun then collapseRuns p rest true
      else ' ' :: collapseRuns p rest true
    else c :: collapseRuns p rest false

/-- JavaScript `String.prototype.trim` on a character list: drop whitespace
from the front, then from the back. -/
def jsTrim (l : List Char) : List Char :=
  (l.dropWhile isJsSpace).rdropWhile isJsSpace

/-- The character-level pipeline of `normalizeRoomName` (src/unnamed/part_003
lines 356-360): lower-case, collapse runs of non-`[a-z0-9]` to one space,
collapse runs of whitespace to one space, trim. -/
def normalizeChars (l : List Char) : List Char :=
  jsTrim (collapseRuns isJsSpace
    (collapseRuns (fun c => !isLowerAlnum c) (l.map jsToLower) false) false)

/-- `normalizeRoomName` (src/unnamed/part_003 lines 354-361).
`if (!name) return null` makes both `null` and `""` return `null`;
every other input goes through the lower-case / collapse / trim chain. -/
def normalizeRoomName : Option String → Option String
  | none => none
  | some s => if s == "" then none else some (String.mk (normalizeChars s.data))

/-- Canonical shape of a normalized room name: only lower-case alphanumerics
and spaces, no two adjacent spaces, and no space at either end.  (The empty
list satisfies this vacuously.) -/
def canonChars (l : List Char) : Prop :=
  (∀ c ∈ l, isLowerAlnum c = true ∨ c = ' ') ∧
  l.Chain' (fun a b => ¬(a = ' ' ∧ b = ' ')) ∧
  (∀ c, l.head? = some c → c ≠ ' ') ∧
  (∀ c, l.getLast? = some c → c ≠ ' ')

/-- One entry of `roomDetections` (src/unnamed/part_003 lines 79-101): the
`identifyRoomName` outcome plus the derived `normalized` key and the page path. -/
structure Detection where
  roomName : Option String
  rawText : Option String
  confidence : Nat
  normalized : Option String
  pageImage : String
deriving DecidableEq, Repr

instance : Inhabited Detection :=
  ⟨{ roomName := none, rawText := none, confidence := 0, normalized := none, pageImage := "" }⟩

/-- One group object built by the grouping loop (src/unnamed/part_003 lines 115-121). -/
structure Group where
  groupId : Nat
  pageIndices : List Nat
  pages : List String
  roomName : Option String
  normalizedName : Option String
deriving DecidableEq, Repr

instance : Inhabited Group :=
  ⟨{ groupId := 0, pageIndices := [], pages := [], roomName := none, normalizedName := none }⟩

/-- `pagesToProcess[i]`; the grouping loop and the workers read page paths at
index `i`, which is also the path recorded in `roomDetections[i].pageImage`. -/
def pageAt (dets : List Detection) (i : Nat) : String :=
  (dets.getD i default).pageImage

/-- The inner `while` guard of the grouping loop (src/unnamed/part_003 lines
130-133): `nextDetection?.normalized && nextDetection.normalized === normalized`.
The first conjunct is a truthiness test, so an empty normalized name never matches. -/
def matchesNorm (d : Detection) (norm : String) : Bool :=
  jsTruthy d.normalized && (d.normalized == some norm)

/-- The inner `while` of the grouping loop (src/unnamed/part_003 lines 125-140):
starting at `cursor`, absorb consecutive indices whose detection matches the
anchor's normalized name, returning the list of absorbed indices in push order.
`fuel` only bounds the recursion; `dets.length - cursor` steps always suffice. -/
def extendRun (fuel : Nat) (dets : List Detection) (norm : String) (cursor : Nat) : List Nat :=
  match fuel with
  | 0 => []
  | fuel + 1 =>
    if cursor < dets.length && matchesNorm (dets.getD cursor default) norm then
      cursor :: extendRun fuel dets norm (cursor + 1)
    else []

/-- The group object opened at `index` (src/unnamed/part_003 lines 114-121,
134-135): `pageIndices` starts with the anchor and then holds the absorbed
indices; `roomName` is `detection?.roomName || detection?.rawText || null`. -/
def mkGroup (dets : List Detection) (gid index : Nat) (ext : List Nat) : Group :=
  let d := dets.getD index default
  { groupId := gid
    pageIndices := index :: ext
    pages := (index :: ext).map (pageAt dets)
    roomName := jsOrNull d.roomName d.rawText
    normalizedName := d.normalized }

/-- The indices absorbed into the group anchored at `index` (src/unnamed/
part_003 lines 123-141): the inner `while` runs only when the anchor's
normalized name is truthy (`if (normalized)`). -/
def extAt (dets : List Detection) (index : Nat) : List Nat :=
  if jsTruthy (dets.getD index default).normalized then
    extendRun (dets.length - (index + 1)) dets
      ((dets.getD index default).normalized.getD "") (index + 1)
  else []

/-- The outer grouping loop (src/unnamed/part_003 lines 108-145): open a group
at `index`, extend it via `extAt`, then continue at the first unabsorbed
index.  `fuel` bounds the recursion; `dets.length` steps always suffice
because each iteration advances `index`. -/
def groupLoop (fuel : Nat) (dets : List Detection) (index gid : Nat) : List Group :=
  match fuel with
  | 0 => []
  | fuel + 1 =>
    if index < dets.length then
      mkGroup dets gid index (extAt dets index)
        :: groupLoop fuel dets (index + 1 + (extAt dets index).length) (gid + 1)
    else []

/-- The full grouping pass over `roomDetections` (src/unnamed/part_003 lines
108-145), starting at index 0 with `groupId` 1. -/
def buildGroups (dets : List Detection) : List Group :=
  groupLoop dets.length dets 0 1

/-- Whether pages `i` and `j` land in the same group of `buildGroups dets`. -/
def sameGroupB (dets : List Detection) (i j : Nat) : Bool :=
  (buildGroups dets).any fun g => g.pageIndices.contains i && g.pageIndices.contains j

/-- The anchor (first page index) of a group; every group the loop builds has
`pageIndices = anchor :: absorbed`. -/
def anchorOf (g : Group) : Nat :=
  g.pageIndices.headD 0

/-- The (abstracted) outcome of one group's `describePageAndGenerate` plus
`addTitleToImage` pipeline: a description and a render path. -/
structure PipeOut where
  description : String
  renderPath : String
deriving DecidableEq, Repr

/-- One `processedPages` entry (src/unnamed/part_003 lines 230-240 and 254-264).
Errors are modelled by their message string. -/
structure PageResult where
  pageImage : String
  groupedWith : List String
  groupId : Nat
  roomName : Option String
  roomHeadingRaw : Option String
  description : Option String
  renderPath : Option String
  error : Option String
  errorMessage : Option String
deriving DecidableEq, Repr

/-- Worker-pool configuration: the detections, the groups, the per-group
pipeline outcome oracle (indexed by the group's position in `groups`), the
error mode and the requested concurrency. -/
structure PoolCfg where
  dets : List Detection
  groups : List Group
  outcomes : Nat → Except String PipeOut
  continueOnError : Bool
  workerCount : Nat

/-- The success `PageResult` written for page `pageIndex` at position
`localIndex` of its group (src/unnamed/part_003 lines 228-241);
`groupedWith` drops the page's own position from `group.pages`. -/
def successResult (dets : List Detection) (g : Group) (po : PipeOut)
    (pageIndex localIndex : Nat) : PageResult :=
  { pageImage := pageAt dets pageIndex
    groupedWith := g.pages.eraseIdx localIndex
    groupId := g.groupId
    roomName := jsOrNull (dets.getD pageIndex default).roomName none
    roomHeadingRaw := jsOrNull (dets.getD pageIndex default).rawText none
    description := some po.description
    renderPath := some po.renderPath
    error := none
    errorMessage := none }

/-- The failure `PageResult` written in the catch branch
(src/unnamed/part_003 lines 252-265). -/
def failureResult (dets : List Detection) (g : Group) (e : String)
    (pageIndex localIndex : Nat) : PageResult :=
  { pageImage := pageAt dets pageIndex
    groupedWith := g.pages.eraseIdx localIndex
    groupId := g.groupId
    roomName := jsOrNull (dets.getD pageIndex default).roomName none
    roomHeadingRaw := jsOrNull (dets.getD pageIndex default).rawText none
    description := none
    renderPath := none
    error := some e
    errorMessage := some e }

/-- The `group.pageIndices.forEach((pageIndex, localIndex) => ...)` fan-out:
write `mk pageIndex localIndex` into each slot of the group, in order. -/
def fanout (mk : Nat → Nat → PageResult) :
    List Nat → Nat → List (Option PageResult) → List (Option PageResult)
  | [], _, slots => slots
  | p :: rest, li, slots => fanout mk rest (li + 1) (slots.set p (some (mk p li)))

/-- Status of one worker coroutine: ready to claim, suspended on the awaited
pipeline of group `g`, exited its loop normally, or terminated by a throw. -/
inductive WStatus
  | idle
  | awaiting (g : Nat)
  | done
  | failed
deriving DecidableEq, Repr

/-- Shared state of the worker pool: the claim cursor (`groupCursor`), the
pre-sized `processedPages` slot array, the workers, and the first rejection
that `Promise.all` will surface (`none` while no worker has thrown). -/
structure PoolState where
  cursor : Nat
  slots : List (Option PageResult)
  workers : List WStatus
  fatal : Option String
deriving DecidableEq, Repr

/-- Slot writes performed when the pipeline of the group at position `gidx`
settles: broadcast a success or failure `PageResult` to every page of the group
(src/unnamed/part_003 lines 228-241 on success, 252-265 on error). -/
def resolveGroup (cfg : PoolCfg) (gidx : Nat)
    (slots : List (Option PageResult)) : List (Option PageResult) :=
  let g := cfg.groups.getD gidx default
  match cfg.outcomes gidx with
  | .ok po => fanout (successResult cfg.dets g po) g.pageIndices 0 slots
  | .error e => fanout (failureResult cfg.dets g e) g.pageIndices 0 slots

/-- One synchronous segment of worker `w` (src/unnamed/part_003 lines 168-272).
An idle worker atomically reads and bumps the cursor (no `await` separates the
bound check from the increment) or leaves its loop; a worker suspended on group
`gidx` resumes when the pipeline settles: it fans the outcome out to the
group's slots and, on error with `continueOnError` false, rethrows — which
rejects its promise and records the first rejection for `Promise.all`. -/
def stepWorker (cfg : PoolCfg) (st : PoolState) (w : Nat) : PoolState :=
  match st.workers.getD w .done with
  | .idle =>
    if st.cursor < cfg.groups.length then
      { st with cursor := st.cursor + 1
                workers := st.workers.set w (.awaiting st.cursor) }
    else
      { st with workers := st.workers.set w .done }
  | .awaiting gidx =>
    match cfg.outcomes gidx with
    | .ok _ =>
      { st with slots := resolveGroup cfg gidx st.slots
                workers := st.workers.set w .idle }
    | .error e =>
      if cfg.continueOnError then
        { st with slots := resolveGroup cfg gidx st.slots
                  workers := st.workers.set w .idle }
      else
        { st with slots := resolveGroup cfg gidx st.slots
                  workers := st.workers.set w .failed
                  fatal := match st.fatal with | some e0 => some e0 | none => some e }
  | .done => st
  | .failed => st

/-- Initial pool state (src/unnamed/part_003 lines 151, 163, 274-276): an
all-unset slot per page and `min(concurrency, groups.length)` idle workers. -/
def initPool (cfg : PoolCfg) (pageCount : Nat) : PoolState :=
  { cursor := 0
    slots := List.replicate pageCount none
    workers := List.replicate (min cfg.workerCount cfg.groups.length) .idle
    fatal := none }

/-- Run the pool under an explicit schedule: each entry names the worker whose
next synchronous segment runs. -/
def runPool (cfg : PoolCfg) (st : PoolState) (sched : List Nat) : PoolState :=
  sched.foldl (stepWorker cfg) st

/-- What `await Promise.all(...)` observes in a state: the first rejection if a
worker has thrown, the slot array if every worker has finished, else nothing yet. -/
def settleCheck (st : PoolState) : Option (Except String (List (Option PageResult))) :=
  match st.fatal with
  | some e => some (.error e)
  | none =>
    if st.workers.all (fun s => s == .done) then some (.ok st.slots) else none

/-- The pool state at the moment `Promise.all` settles, running the schedule
until then; `none` when the schedule is exhausted before the pool settles.
Workers keep running past a rejection in the real program, but everything after
the settle point is invisible to `pdfGenerate`, which has already resumed. -/
def poolSettle (cfg : PoolCfg) : PoolState → List Nat → Option PoolState
  | st, [] => if (settleCheck st).isSome then some st else none
  | st, w :: rest =>
    if (settleCheck st).isSome then some st
    else poolSettle cfg (stepWorker cfg st w) rest

/-- The value `await Promise.all(...)` produces for the caller. -/
def poolOutcome (cfg : PoolCfg) (st : PoolState) (sched : List Nat) :
    Option (Except String (List (Option PageResult))) :=
  match poolSettle cfg st sched with
  | none => none
  | some st1 => settleCheck st1

/-- Position in `cfg.groups` of the group containing page `i`. -/
def groupIndexOf (cfg : PoolCfg) (i : Nat) : Nat :=
  (cfg.groups.findIdx? (fun g => g.pageIndices.contains i)).getD 0

/-- The unique `PageResult` that the pool can ever write into slot `i`:
determined by the page's group and that group's pipeline outcome alone. -/
def expectedSlot (cfg : PoolCfg) (i : Nat) : PageResult :=
  let gi := groupIndexOf cfg i
  let g := cfg.groups.getD gi default
  match cfg.outcomes gi with
  | .ok po => successResult cfg.dets g po i (g.pageIndices.indexOf i)
  | .error e => failureResult cfg.dets g e i (g.pageIndices.indexOf i)

/-- Well-formedness of a pool configuration: the groups' page-index lists,
concatenated in group order, are exactly `[0..N)`.  `buildGroups` always
produces such a list (see `buildGroups_flatten`). -/
def cfgWF (cfg : PoolCfg) (N : Nat) : Prop :=
  ((cfg.groups.map Group.pageIndices).flatten = List.range N)

/-- Inductive invariant of the worker pool, for `N` pages and `W` workers:
lengths are fixed; the cursor never passes the group count; a worker awaits
only an already-claimed group, and no two workers await the same group; a
worker is `done` only once the cursor is exhausted; an unclaimed group has all
its slots unset and no worker on it; a claimed group either has exactly its
claiming worker still in flight (slots unset) or has been fully fanned out to
the uniquely determined `expectedSlot` values; a recorded rejection implies
strict mode and a fully marked failing group. -/
structure PoolInv (cfg : PoolCfg) (N W : Nat) (st : PoolState) : Prop where
  slotsLen : st.slots.length = N
  workersLen : st.workers.length = W
  cursorLe : st.cursor ≤ cfg.groups.length
  awaitLt : ∀ w g, st.workers.getD w .done = .awaiting g → g < st.cursor
  awaitInj : ∀ w1 w2 g, w1 ≠ w2 → st.workers.getD w1 .done = .awaiting g →
    st.workers.getD w2 .done ≠ .awaiting g
  doneCursor : ∀ w, w < W → st.workers.getD w .done = .done →
    st.cursor = cfg.groups.length
  unclaimed : ∀ g, st.cursor ≤ g → g < cfg.groups.length →
    (∀ i ∈ (cfg.groups.getD g default).pageIndices, st.slots.getD i none = none)
      ∧ ∀ w, st.workers.getD w .done ≠ .awaiting g
  claimed : ∀ g, g < st.cursor →
    (∃ w, st.workers.getD w .done = .awaiting g
        ∧ ∀ i ∈ (cfg.groups.getD g default).pageIndices, st.slots.getD i none = none)
    ∨ ((∀ i ∈ (cfg.groups.getD g default).pageIndices,
          st.slots.getD i none = some (expectedSlot cfg i))
        ∧ ∀ w, st.workers.getD w .done ≠ .awaiting g)
  fatalSpec : ∀ e, st.fatal = some e → cfg.continueOnError = false
    ∧ ∃ g, g < cfg.groups.length ∧ cfg.outcomes g = Except.error e
      ∧ ∀ i ∈ (cfg.groups.getD g default).pageIndices,
          st.slots.getD i none = some (expectedSlot cfg i)

/-- JavaScript `s && s.trim()` on a nullable string: falsy values pass through,
a truthy string is trimmed (and a whitespace-only string therefore becomes the
falsy `""`). -/
def jsAndTrim (o : Option String) : Option String :=
  match o with
  | none => none
  | some s => if s == "" then some s else some (String.mk (jsTrim s.data))

/-- `part.charAt(0).toUpperCase() + part.slice(1)` on one word. -/
def capitalizeWord (s : String) : String :=
  match s.data with
  | [] => ""
  | c :: rest => String.mk (jsToUpper c :: rest)

/-- `normalizedName.split(" ").map(capitalize).join(" ")`
(src/unnamed/part_003 lines 215-218). -/
def titleCaseWords (s : String) : String :=
  String.intercalate " " ((s.splitOn " ").map capitalizeWord)

/-- `group.normalizedName && normalizedName.split(" ").map(capitalize).join(" ")`
(src/unnamed/part_003 lines 214-218): falsy values pass through. -/
def titleCandidate : Option String → Option String
  | none => none
  | some s => if s == "" then some s else some (titleCaseWords s)

/-- The `titleText` fallback chain of the worker's success path
(src/unnamed/part_003 lines 203-219): trimmed raw heading of the group's first
page, else the group's `roomName`, else that page's cleaned `roomName`, else the
title-cased normalized name, else `"Room"` — a left-associated JavaScript `||`
chain.  The heading source is `roomDetections[group.pageIndices[0]]`, or an
empty object for an empty group. -/
def titleText (dets : List Detection) (g : Group) : String :=
  let headingSource :=
    match g.pageIndices with
    | [] => (default : Detection)
    | i :: _ => dets.getD i default
  let cand :=
    jsOr (jsOr (jsOr (jsAndTrim headingSource.rawText) (jsAndTrim g.roomName))
      (jsAndTrim headingSource.roomName)) (titleCandidate g.normalizedName)
  if jsTruthy cand then cand.getD "" else "Room"

/-- What `identifyRoomName` resolves with (src/unnamed/part_001 lines 306-318). -/
structure RawDetection where
  roomName : Option String
  rawText : Option String
  confidence : Nat
deriving DecidableEq, Repr

/-- The sequential detection pass (src/unnamed/part_003 lines 69-106): one
`identifyRoomName` call per page; a success is recorded together with
`normalizeRoomName(detection.roomName || detection.rawText)`; a failure is
recorded as an all-null detection and, when `continueOnError` is false,
rethrown, aborting `pdfGenerate`. -/
def detectPass (detect : String → Except String RawDetection) (continueOnError : Bool) :
    List String → Except String (List Detection)
  | [] => .ok []
  | p :: rest =>
    match detect p with
    | .ok rd =>
      match detectPass detect continueOnError rest with
      | .ok l =>
        .ok ({ roomName := rd.roomName, rawText := rd.rawText, confidence := rd.confidence,
               normalized := normalizeRoomName (jsOr rd.roomName rd.rawText),
               pageImage := p } :: l)
      | .error e => .error e
    | .error e =>
      if continueOnError then
        match detectPass detect continueOnError rest with
        | .ok l =>
          .ok ({ roomName := none, rawText := none, confidence := 0,
                 normalized := none, pageImage := p } :: l)
        | .error e1 => .error e1
      else .error e

/-- Extensions accepted by `outputMerge` (src/output-merge.js line 21). -/
def imageExtensions : List String :=
  [".png", ".jpg", ".jpeg", ".gif", ".bmp", ".webp"]

/-- `path.extname` on a bare file name: the substring from the last dot on,
empty for dotless names and for a leading-dot name. -/
def extname (f : String) : String :=
  let cs := f.data
  let revTail := cs.reverse.takeWhile (fun c => !(c == '.'))
  if revTail.length + 1 ≤ cs.length then
    if cs.length - revTail.length - 1 == 0 then ""
    else String.mk ('.' :: revTail.reverse)
  else ""

/-- The input checks and image-file selection of `outputMerge`
(src/output-merge.js lines 14-33) over a directory listing: missing directory
and empty image set both throw; otherwise the image files are returned.  (The
pdf-lib page assembly and file writes are external I/O, out of scope.) -/
def outputMergeCheck (dirExists : Bool) (files : List String) :
    Except String (List String) :=
  if !dirExists then .error "Output directory does not exist"
  else
    let imageFiles := files.filter fun f =>
      imageExtensions.contains (String.mk ((extname f).data.map jsToLower))
    if imageFiles.length == 0 then .error "No image files found in output directory"
    else .ok imageFiles

/-- `mergedPdfPath` is set from a successful merge and stays `null` on a merge
failure (src/unnamed/part_003 lines 286, 296, 335-338). -/
def mergeToPath : Except String String → Option String
  | .ok p => some p
  | .error _ => none

/-- The report object `pdfGenerate` resolves with.  The early-skip return
(src/unnamed/part_003 lines 45-50) carries only the first four keys, modelled
by `none` in the optional fields; the final return (lines 341-351) fills all of
them, with `mergedPdfPath := some p` tracking the possibly-null merged path. -/
structure GenReport where
  pageImages : List String
  processedPages : List (Option PageResult)
  skipPagesEcho : Option Nat
  concurrencyEcho : Option Nat
  groupsOut : Option (List Group)
  mergedPdfPath : Option (Option String)
deriving DecidableEq, Repr

/-- Options of `pdfGenerate` that the modelled phases read
(src/unnamed/part_003 lines 26-33, 285): `skipPages`, `continueOnError`,
`concurrency` (validated positive by the source, hence a plain `Nat` here) and
`mergeOutput`. -/
structure GenOptions where
  skipPages : Nat
  continueOnError : Bool
  concurrency : Nat
  mergeOutput : Bool
deriving DecidableEq, Repr

/-- `pdfGenerate` from the rendered page list on (src/unnamed/part_003 lines
41-351): early return when `skipPages >= pageImages.length`; otherwise the
sequential detection pass, the grouping loop, the worker pool (driven by
`sched`; `none` when the schedule ends before the pool settles), and the
non-fatal merge step.  `detect`, `outcomes` and `mergeOutcome` are the oracles
for the external collaborators.  A thrown error surfaces as `Except.error`.
(The `pagesToProcess.length === 0` branch at lines 58-67 is unreachable for a
natural `skipPages`, and the PNG cleanup is external I/O, out of scope.) -/
def pdfGenerateModel (pageImages : List String) (opts : GenOptions)
    (detect : String → Except String RawDetection)
    (outcomes : Nat → Except String PipeOut)
    (sched : List Nat)
    (mergeOutcome : Except String String) : Option (Except String GenReport) :=
  if pageImages.length ≤ opts.skipPages then
    some (.ok { pageImages := pageImages, processedPages := [],
                skipPagesEcho := none, concurrencyEcho := none,
                groupsOut := none, mergedPdfPath := none })
  else
    let pagesToProcess := pageImages.drop opts.skipPages
    match detectPass detect opts.continueOnError pagesToProcess with
    | .error e => some (.error e)
    | .ok dets =>
      let groups := buildGroups dets
      let cfg : PoolCfg :=
        { dets := dets, groups := groups, outcomes := outcomes,
          continueOnError := opts.continueOnError, workerCount := opts.concurrency }
      match poolSettle cfg (initPool cfg pagesToProcess.length) sched with
      | none => none
      | some st =>
        match st.fatal with
        | some e => some (.error e)
        | none =>
          let merged : Option String :=
            if opts.mergeOutput then mergeToPath mergeOutcome else none
          some (.ok { pageImages := pageImages, processedPages := st.slots,
                      skipPagesEcho := some opts.skipPages,
                      concurrencyEcho := some (min opts.concurrency groups.length),
                      groupsOut := some groups, mergedPdfPath := some merged })


/-! ### Concrete instances used by closed counterexamples and witnesses -/

/-- A detection exactly as the sequential pass builds it: `normalized` is
derived from `roomName || rawText` (src/unnamed/part_003 lines 76-78). -/
def sampleDet (rn rt : Option String) (pg : String) : Detection :=
  { roomName := rn, rawText := rt, confidence := 0,
    normalized := normalizeRoomName (jsOr rn rt), pageImage := pg }

/-- Two pages whose raw headings are `"***"`: both normalize to `""`. -/
def detsStars : List Detection :=
  [sampleDet none (some "***") "p0", sampleDet none (some "***") "p1"]

/-- Spec scenario 1 detections: Kitchen, KITCHEN, then an unlabeled page. -/
def detsKitchen : List Detection :=
  [sampleDet (some "Kitchen") (some "Kitchen") "p0",
   sampleDet (some "KITCHEN") (some "KITCHEN") "p1",
   sampleDet none none "p2"]

/-- One page with distinct cleaned name and raw heading. -/
def detsLabel : List Detection :=
  [sampleDet (some "Kitchen") (some "KITCHEN 1") "p0"]

/-- Two pages in two different rooms. -/
def detsTwo : List Detection :=
  [sampleDet (some "Kitchen") (some "KITCHEN 1") "p0",
   sampleDet (some "Bedroom") (some "BEDROOM") "p1"]

/-- Three pages in three different rooms. -/
def detsThree : List Detection :=
  [sampleDet (some "Kitchen") none "p0", sampleDet (some "Bedroom") none "p1",
   sampleDet (some "Bath") none "p2"]

/-- A fixed successful pipeline outcome. -/
def okPipe : PipeOut :=
  { description := "desc", renderPath := "render" }

/-- Strict pool over `detsTwo` whose first group's pipeline rejects. -/
def cfgBoom : PoolCfg :=
  { dets := detsTwo, groups := buildGroups detsTwo,
    outcomes := fun g => if g == 0 then .error "boom" else .ok okPipe,
    continueOnError := false, workerCount := 1 }

/-- The state at which `cfgBoom`'s pool rejects under the sequential schedule. -/
def stBoom : PoolState :=
  match poolSettle cfgBoom (initPool cfgBoom 2) [0, 0] with
  | some st => st
  | none => initPool cfgBoom 2

/-- Strict two-worker pool over `detsThree` whose first group rejects. -/
def cfgBoom3 : PoolCfg :=
  { dets := detsThree, groups := buildGroups detsThree,
    outcomes := fun g => if g == 0 then .error "boom" else .ok okPipe,
    continueOnError := false, workerCount := 2 }

/-- All-success two-worker pool over `detsTwo`. -/
def cfgOk : PoolCfg :=
  { dets := detsTwo, groups := buildGroups detsTwo,
    outcomes := fun _ => .ok okPipe,
    continueOnError := false, workerCount := 2 }

/-- A schedule completing `cfgOk`: both workers claim, resolve, and retire. -/
def schedOk : List Nat := [0, 0, 1, 1, 0, 1]

/-- The slot array `cfgOk` settles with. -/
def slOk : List (Option PageResult) :=
  match poolOutcome cfgOk (initPool cfgOk 2) schedOk with
  | some (.ok sl) => sl
  | _ => []

/-- Continue-on-error pool over `detsThree` in which only group 1 fails. -/
def cfgIso : PoolCfg :=
  { dets := detsThree, groups := buildGroups detsThree,
    outcomes := fun g => if g == 1 then .error "generation failed" else .ok okPipe,
    continueOnError := true, workerCount := 2 }

/-- The same pool with every pipeline succeeding. -/
def cfgIsoOk : PoolCfg :=
  { dets := detsThree, groups := buildGroups detsThree,
    outcomes := fun _ => .ok okPipe,
    continueOnError := true, workerCount := 2 }

/-- A schedule completing both `cfgIso` and `cfgIsoOk`. -/
def schedIso : List Nat := [0, 1, 0, 1, 0, 0, 0, 1]

/-- The slot array `cfgIso` settles with. -/
def slIso : List (Option PageResult) :=
  match poolOutcome cfgIso (initPool cfgIso 3) schedIso with
  | some (.ok sl) => sl
  | _ => []

/-- The slot array `cfgIsoOk` settles with. -/
def slIsoOk : List (Option PageResult) :=
  match poolOutcome cfgIsoOk (initPool cfgIsoOk 3) schedIso with
  | some (.ok sl) => sl
  | _ => []

/-- A detection oracle that always finds the kitchen heading. -/
def detectKitchen : String → Except String RawDetection :=
  fun _ => .ok { roomName := some "Kitchen", rawText := some "Kitchen", confidence := 90 }

/-- Options for the single-page end-to-end witness run. -/
def optsOnePage : GenOptions :=
  { skipPages := 0, continueOnError := false, concurrency := 1, mergeOutput := true }

/-- The report of the single-page run whose merge step rejects. -/
def reportOnePage : GenReport :=
  match pdfGenerateModel ["p0"] optsOnePage detectKitchen (fun _ => .ok okPipe)
      [0, 0, 0] (.error "merge failed") with
  | some (.ok r) => r
  | _ => { pageImages := [], processedPages := [], skipPagesEcho := none,
           concurrencyEcho := none, groupsOut := none, mergedPdfPath := none }

end Stagify

namespace Stagify

/-! ### Character-level facts -/

lemma toNat_le_of_isJsSpace {c : Char} (h : isJsSpace c = true) : c.toNat ≤ 32 := by
  simp only [isJsSpace, Bool.or_eq_true, beq_iff_eq] at h
  rcases h with ((((h | h) | h) | h) | h) | h <;> subst h <;> decide

lemma toNat_of_isLowerAlnum {c : Char} (h : isLowerAlnum c = true) :
    (97 ≤ c.toNat ∧ c.toNat ≤ 122) ∨ (48 ≤ c.toNat ∧ c.toNat ≤ 57) := by
  simpa only [isLowerAlnum, Bool.or_eq_true, Bool.and_eq_true, decide_eq_true_eq] using h

lemma jsToLower_fix_of_isLowerAlnum {c : Char} (h : isLowerAlnum c = true) :
    jsToLower c = c := by
  have h2 := toNat_of_isLowerAlnum h
  simp only [jsToLower]
  rw [if_neg]
  simp only [Bool.and_eq_true, decide_eq_true_eq, not_and]
  omega

lemma jsToLower_fix_of_isJsSpace {c : Char} (h : isJsSpace c = true) : jsToLower c = c := by
  have h2 := toNat_le_of_isJsSpace h
  simp only [jsToLower]
  rw [if_neg]
  simp only [Bool.and_eq_true, decide_eq_true_eq, not_and]
  omega

lemma not_isJsSpace_of_isLowerAlnum {c : Char} (h : isLowerAlnum c = true) :
    isJsSpace c = false := by
  cases hc : isJsSpace c
  · rfl
  · have h1 := toNat_le_of_isJsSpace hc
    have h2 := toNat_of_isLowerAlnum h
    omega

lemma not_isLowerAlnum_of_isJsSpace {c : Char} (h : isJsSpace c = true) :
    isLowerAlnum c = false := by
  cases hc : isLowerAlnum c
  · rfl
  · have h1 := toNat_le_of_isJsSpace h
    have h2 := toNat_of_isLowerAlnum hc
    omega

/-! ### `collapseRuns` equations and structure -/

lemma collapseRuns_cons_pos_true {p : Char → Bool} {a : Char} {l : List Char}
    (h : p a = true) : collapseRuns p (a :: l) true = collapseRuns p l true := by
  simp [collapseRuns, h]

lemma collapseRuns_cons_pos_false {p : Char → Bool} {a : Char} {l : List Char}
    (h : p a = true) : collapseRuns p (a :: l) false = ' ' :: collapseRuns p l true := by
  simp [collapseRuns, h]

lemma collapseRuns_cons_neg {p : Char → Bool} {a : Char} {l : List Char} {b : Bool}
    (h : p a = false) : collapseRuns p (a :: l) b = a :: collapseRuns p l false := by
  cases b <;> simp [collapseRuns, h]

lemma collapseRuns_mem {p : Char → Bool} :
    ∀ {l : List Char} {b : Bool} {c : Char},
      c ∈ collapseRuns p l b → c = ' ' ∨ (p c = false ∧ c ∈ l) := by
  intro l
  induction l with
  | nil => intro b c h; simp [collapseRuns] at h
  | cons a l ih =>
    intro b c h
    cases ha : p a with
    | true =>
      cases b with
      | true =>
        rw [collapseRuns_cons_pos_true ha] at h
        rcases ih h with h1 | ⟨h1, h2⟩
        · exact Or.inl h1
        · exact Or.inr ⟨h1, List.mem_cons_of_mem _ h2⟩
      | false =>
        rw [collapseRuns_cons_pos_false ha] at h
        rcases List.mem_cons.1 h with h1 | h1
        · exact Or.inl h1
        rcases ih h1 with h2 | ⟨h2, h3⟩
        · exact Or.inl h2
        · exact Or.inr ⟨h2, List.mem_cons_of_mem _ h3⟩
    | false =>
      rw [collapseRuns_cons_neg ha] at h
      rcases List.mem_cons.1 h with h1 | h1
      · subst h1; exact Or.inr ⟨ha, List.mem_cons_self _ _⟩
      rcases ih h1 with h2 | ⟨h2, h3⟩
      · exact Or.inl h2
      · exact Or.inr ⟨h2, List.mem_cons_of_mem _ h3⟩

lemma collapseRuns_true_head {p : Char → Bool} :
    ∀ {l : List Char} {c : Char} {rest : List Char},
      collapseRuns p l true = c :: rest → p c = false := by
  intro l
  induction l with
  | nil => intro c rest h; simp [collapseRuns] at h
  | cons a l ih =>
    intro c rest h
    cases ha : p a with
    | true => rw [collapseRuns_cons_pos_true ha] at h; exact ih h
    | false =>
      rw [collapseRuns_cons_neg ha] at h
      cases h
      exact ha

lemma collapseRuns_chain {p : Char → Bool} (hp : p ' ' = true) :
    ∀ (l : List Char) (b : Bool),
      (collapseRuns p l b).Chain' (fun x y => ¬(x = ' ' ∧ y = ' ')) := by
  intro l
  induction l with
  | nil => intro b; simp [collapseRuns]
  | cons a l ih =>
    intro b
    cases ha : p a with
    | true =>
      cases b with
      | true => rw [collapseRuns_cons_pos_true ha]; exact ih true
      | false =>
        rw [collapseRuns_cons_pos_false ha]
        rw [List.chain'_cons']
        refine ⟨?_, ih true⟩
        intro y hy
        cases hrec : collapseRuns p l true with
        | nil => rw [hrec] at hy; simp at hy
        | cons c rest =>
          rw [hrec] at hy
          simp only [List.head?_cons, Option.mem_def, Option.some.injEq] at hy
          subst hy
          have := collapseRuns_true_head hrec
          intro hcon
          rw [hcon.2] at this
          rw [hp] at this
          exact Bool.noConfusion this
    | false =>
      rw [collapseRuns_cons_neg ha]
      rw [List.chain'_cons']
      refine ⟨?_, ih false⟩
      intro y hy hcon
      rw [hcon.1] at ha
      rw [hp] at ha
      exact Bool.noConfusion ha

lemma collapseRuns_eq_self {p : Char → Bool} :
    ∀ {l : List Char}, (∀ c ∈ l, p c = true → c = ' ') →
      l.Chain' (fun x y => ¬(x = ' ' ∧ y = ' ')) → collapseRuns p l false = l := by
  intro l
  induction l with
  | nil => intro _ _; rfl
  | cons a l ih =>
    intro hsp hch
    cases ha : p a with
    | true =>
      have haSp : a = ' ' := hsp a (List.mem_cons_self _ _) ha
      rw [collapseRuns_cons_pos_false ha, haSp]
      cases l with
      | nil => rfl
      | cons b l2 =>
        have hb : p b = false := by
          cases hb : p b with
          | false => rfl
          | true =>
            have hbSp : b = ' ' := hsp b (by simp) hb
            have := (List.chain'_cons.1 hch).1
            exact absurd ⟨haSp, hbSp⟩ this
        rw [collapseRuns_cons_neg hb]
        have htail := (List.chain'_cons.1 hch).2
        have := ih (fun c hc hpc => hsp c (List.mem_cons_of_mem _ hc) hpc) htail
        rw [collapseRuns_cons_neg hb] at this
        rw [this]
    | false =>
      rw [collapseRuns_cons_neg ha]
      have htail : l.Chain' (fun x y => ¬(x = ' ' ∧ y = ' ')) := hch.tail
      rw [ih (fun c hc hpc => hsp c (List.mem_cons_of_mem _ hc) hpc) htail]

lemma collapseRuns_all_true {p : Char → Bool} :
    ∀ {l : List Char}, (∀ c ∈ l, p c = true) → collapseRuns p l true = [] := by
  intro l
  induction l with
  | nil => intro _; rfl
  | cons a l ih =>
    intro hall
    rw [collapseRuns_cons_pos_true (hall a (List.mem_cons_self _ _))]
    exact ih fun c hc => hall c (List.mem_cons_of_mem _ hc)

lemma collapseRuns_all_false {p : Char → Bool} {a : Char} {l : List Char}
    (hall : ∀ c ∈ a :: l, p c = true) : collapseRuns p (a :: l) false = [' '] := by
  rw [collapseRuns_cons_pos_false (hall a (List.mem_cons_self _ _))]
  rw [collapseRuns_all_true fun c hc => hall c (List.mem_cons_of_mem _ hc)]

lemma bnot_eq_false {b : Bool} (h : (!b) = false) : b = true := by
  cases b
  · exact absurd h (by decide)
  · rfl

lemma bnot_eq_true {b : Bool} (h : (!b) = true) : b = false := by
  cases b
  · rfl
  · exact absurd h (by decide)

/-! ### `jsTrim` structure -/

lemma jsTrim_subset {l : List Char} : jsTrim l ⊆ l := by
  intro c hc
  unfold jsTrim List.rdropWhile at hc
  rw [List.mem_reverse] at hc
  have h1 := List.dropWhile_subset (l := (l.dropWhile isJsSpace).reverse) isJsSpace hc
  rw [List.mem_reverse] at h1
  exact List.dropWhile_subset _ h1

lemma chain'_rdropWhile {R : Char → Char → Prop}
    {p : Char → Bool} {l : List Char} (h : l.Chain' R) : (l.rdropWhile p).Chain' R := by
  unfold List.rdropWhile
  rw [List.chain'_reverse]
  apply List.Chain'.suffix _ (List.dropWhile_suffix p)
  rw [List.chain'_reverse]
  exact h.imp fun a b hab => hab

lemma jsTrim_chain {R : Char → Char → Prop}
    {l : List Char} (h : l.Chain' R) : (jsTrim l).Chain' R :=
  chain'_rdropWhile (h.suffix (List.dropWhile_suffix isJsSpace))

lemma jsTrim_head?_not_space {l : List Char} {c : Char}
    (h : (jsTrim l).head? = some c) : isJsSpace c = false := by
  obtain ⟨t, ht⟩ := List.rdropWhile_prefix isJsSpace (l.dropWhile isJsSpace)
  cases hT : jsTrim l with
  | nil => rw [hT] at h; exact Option.noConfusion h
  | cons c0 rest =>
    rw [hT] at h
    simp only [List.head?_cons, Option.some.injEq] at h
    have hX : l.dropWhile isJsSpace = c0 :: (rest ++ t) := by
      have heq : jsTrim l ++ t = l.dropWhile isJsSpace := ht
      rw [hT] at heq
      simpa using heq.symm
    have h2 := List.head?_dropWhile_not isJsSpace l
    rw [hX] at h2
    rw [← h]
    simpa using h2

lemma jsTrim_getLast?_not_space {l : List Char} {c : Char}
    (h : (jsTrim l).getLast? = some c) : isJsSpace c = false := by
  have hne : jsTrim l ≠ [] := by
    intro he; rw [he] at h; exact Option.noConfusion h
  have h2 := List.rdropWhile_last_not isJsSpace (l.dropWhile isJsSpace) hne
  rw [List.getLast?_eq_getLast_of_ne_nil hne] at h
  simp only [Option.some.injEq] at h
  subst h
  simpa using h2

/-! ### The canonical form of `normalizeChars` -/

lemma map_jsToLower_fix {l : List Char} (h : ∀ c ∈ l, jsToLower c = c) :
    l.map jsToLower = l := by
  induction l with
  | nil => rfl
  | cons a l ih =>
    simp only [List.map_cons]
    rw [h a (List.mem_cons_self _ _), ih fun c hc => h c (List.mem_cons_of_mem _ hc)]

lemma normalizeChars_eq_trim {l : List Char} :
    normalizeChars l
      = jsTrim (collapseRuns (fun c => !isLowerAlnum c) (l.map jsToLower) false) := by
  unfold normalizeChars
  congr 1
  apply collapseRuns_eq_self
  · intro c hc hws
    rcases collapseRuns_mem hc with h | ⟨h, _⟩
    · exact h
    · rw [not_isJsSpace_of_isLowerAlnum (bnot_eq_false h)] at hws
      exact Bool.noConfusion hws
  · exact collapseRuns_chain (by decide) _ false

lemma canon_normalizeChars (l : List Char) : canonChars (normalizeChars l) := by
  rw [normalizeChars_eq_trim]
  have memA : ∀ c ∈ collapseRuns (fun c => !isLowerAlnum c) (l.map jsToLower) false,
      isLowerAlnum c = true ∨ c = ' ' := by
    intro c hc
    rcases collapseRuns_mem hc with h | ⟨h, _⟩
    · exact Or.inr h
    · exact Or.inl (bnot_eq_false h)
  refine ⟨?_, ?_, ?_, ?_⟩
  · intro c hc
    exact memA c (jsTrim_subset hc)
  · exact jsTrim_chain (collapseRuns_chain (by decide) _ false)
  · intro c hc hsp
    have := jsTrim_head?_not_space hc
    rw [hsp] at this
    exact Bool.noConfusion this
  · intro c hc hsp
    have := jsTrim_getLast?_not_space hc
    rw [hsp] at this
    exact Bool.noConfusion this

lemma normalizeChars_fix {t : List Char} (h : canonChars t) : normalizeChars t = t := by
  obtain ⟨hmem, hch, hhead, hlast⟩ := h
  have hmap : t.map jsToLower = t := by
    apply map_jsToLower_fix
    intro c hc
    rcases hmem c hc with h1 | h1
    · exact jsToLower_fix_of_isLowerAlnum h1
    · subst h1; decide
  have hspace : ∀ c ∈ t, isJsSpace c = true → c = ' ' := by
    intro c hc hws
    rcases hmem c hc with h1 | h1
    · rw [not_isJsSpace_of_isLowerAlnum h1] at hws; exact Bool.noConfusion hws
    · exact h1
  have h1 : collapseRuns (fun c => !isLowerAlnum c) t false = t := by
    apply collapseRuns_eq_self _ hch
    intro c hc hp
    simp only [Bool.not_eq_true'] at hp
    rcases hmem c hc with h2 | h2
    · rw [h2] at hp; exact Bool.noConfusion hp
    · exact h2
  have h2 : collapseRuns isJsSpace t false = t := collapseRuns_eq_self hspace hch
  have h3 : jsTrim t = t := by
    unfold jsTrim
    have hdw : t.dropWhile isJsSpace = t := by
      cases ht : t with
      | nil => rfl
      | cons a rest =>
        have ha : isJsSpace a = false := by
          cases hsp : isJsSpace a
          · rfl
          · have : a = ' ' := hspace a (by rw [ht]; exact List.mem_cons_self _ _) hsp
            exact absurd this (hhead a (by rw [ht]; rfl))
        simp [List.dropWhile_cons, ha]
    rw [hdw]
    apply List.rdropWhile_eq_self_iff.mpr
    intro hl
    have hmemLast := List.getLast_mem hl
    have hlastSome := List.getLast?_eq_getLast_of_ne_nil hl
    have hne : t.getLast hl ≠ ' ' := hlast _ hlastSome
    cases hsp : isJsSpace (t.getLast hl)
    · simp [hsp]
    · exact absurd (hspace _ hmemLast hsp) hne
  unfold normalizeChars
  rw [hmap, h1, h2, h3]

/-! ### `normalizeRoomName` facts -/

lemma normalizeRoomName_some_of_ne {s : String} (h : s ≠ "") :
    normalizeRoomName (some s) = some (String.mk (normalizeChars s.data)) := by
  simp [normalizeRoomName, h]

lemma normalizeRoomName_renormalize {s t : String}
    (h : normalizeRoomName (some s) = some t) (ht : t ≠ "") :
    normalizeRoomName (some t) = some t := by
  by_cases hs : s = ""
  · subst hs; simp [normalizeRoomName] at h
  · rw [normalizeRoomName_some_of_ne hs] at h
    injection h with h
    rw [normalizeRoomName_some_of_ne ht]
    have hdata : t.data = normalizeChars s.data := by rw [← h]
    have hfix : normalizeChars t.data = t.data := by
      rw [hdata, normalizeChars_fix (canon_normalizeChars s.data), ← hdata]
    rw [hfix]

lemma normalizeRoomName_whitespace {s : String} (hne : s.data ≠ [])
    (hws : ∀ c ∈ s.data, isJsSpace c = true) : normalizeRoomName (some s) = some "" := by
  have hsne : s ≠ "" := by
    intro he
    apply hne
    rw [he]
  rw [normalizeRoomName_some_of_ne hsne]
  congr 1
  have hmap : s.data.map jsToLower = s.data :=
    map_jsToLower_fix fun c hc => jsToLower_fix_of_isJsSpace (hws c hc)
  have hA : collapseRuns (fun c => !isLowerAlnum c) s.data false = [' '] := by
    cases hd : s.data with
    | nil => exact absurd hd hne
    | cons a rest =>
      apply collapseRuns_all_false
      intro c hc
      rw [← hd] at hc
      simp only [Bool.not_eq_true']
      exact not_isLowerAlnum_of_isJsSpace (hws c hc)
  unfold normalizeChars
  rw [hmap, hA]
  decide

/-! ### Truthiness and match-guard characterizations -/

lemma jsOr_of_truthy {a b : Option String} (h : jsTruthy a = true) : jsOr a b = a := by
  simp [jsOr, h]

lemma jsTruthy_some_iff {s : String} : jsTruthy (some s) = true ↔ s ≠ "" := by
  simp [jsTruthy]

lemma jsTruthy_iff {o : Option String} :
    jsTruthy o = true ↔ ∃ s, o = some s ∧ s ≠ "" := by
  cases o with
  | none => simp [jsTruthy]
  | some s => simp [jsTruthy_some_iff]

lemma matchesNorm_iff {d : Detection} {norm : String} :
    matchesNorm d norm = true ↔ d.normalized = some norm ∧ norm ≠ "" := by
  unfold matchesNorm
  rw [Bool.and_eq_true]
  cases hn : d.normalized with
  | none => simp [jsTruthy]
  | some s =>
    rw [jsTruthy_some_iff]
    constructor
    · rintro ⟨h1, h2⟩
      rw [beq_iff_eq] at h2
      injection h2 with h2
      subst h2
      exact ⟨rfl, h1⟩
    · rintro ⟨h1, h2⟩
      injection h1 with h1
      subst h1
      exact ⟨h2, beq_iff_eq.2 rfl⟩

/-! ### `extendRun` structure -/

lemma mem_range1 {s n m : Nat} : m ∈ List.range' s n ↔ s ≤ m ∧ m < s + n := by
  rw [List.mem_range']
  constructor
  · rintro ⟨i, hi, rfl⟩; omega
  · intro h; exact ⟨m - s, by omega, by omega⟩

lemma extendRun_succ_eq (fuel : Nat) (dets : List Detection) (norm : String) (cursor : Nat) :
    extendRun (fuel + 1) dets norm cursor
      = if (decide (cursor < dets.length) && matchesNorm (dets.getD cursor default) norm) = true
        then cursor :: extendRun fuel dets norm (cursor + 1) else [] := rfl

lemma extendRun_succ_pos {fuel : Nat} {dets : List Detection} {norm : String} {cursor : Nat}
    (h1 : cursor < dets.length) (h2 : matchesNorm (dets.getD cursor default) norm = true) :
    extendRun (fuel + 1) dets norm cursor = cursor :: extendRun fuel dets norm (cursor + 1) := by
  rw [extendRun_succ_eq, if_pos]
  rw [Bool.and_eq_true, decide_eq_true_eq]
  exact ⟨h1, h2⟩

lemma extendRun_succ_stop {fuel : Nat} {dets : List Detection} {norm : String} {cursor : Nat}
    (h : ¬(cursor < dets.length ∧ matchesNorm (dets.getD cursor default) norm = true)) :
    extendRun (fuel + 1) dets norm cursor = [] := by
  rw [extendRun_succ_eq, if_neg]
  intro hc
  rw [Bool.and_eq_true, decide_eq_true_eq] at hc
  exact h hc

lemma extendRun_range {dets : List Detection} {norm : String} :
    ∀ (fuel cursor : Nat),
      extendRun fuel dets norm cursor
        = List.range' cursor (extendRun fuel dets norm cursor).length := by
  intro fuel
  induction fuel with
  | zero => intro cursor; rfl
  | succ fuel ih =>
    intro cursor
    by_cases h : cursor < dets.length ∧ matchesNorm (dets.getD cursor default) norm = true
    · rw [extendRun_succ_pos h.1 h.2, ih (cursor + 1)]
      simp [List.range'_succ]
    · rw [extendRun_succ_stop h]
      rfl

lemma extendRun_matches (dets : List Detection) (norm : String) :
    ∀ (fuel cursor m : Nat), m < (extendRun fuel dets norm cursor).length →
      cursor + m < dets.length
        ∧ matchesNorm (dets.getD (cursor + m) default) norm = true := by
  intro fuel
  induction fuel with
  | zero => intro cursor m h; simp [extendRun] at h
  | succ fuel ih =>
    intro cursor m hm
    by_cases h : cursor < dets.length ∧ matchesNorm (dets.getD cursor default) norm = true
    · rw [extendRun_succ_pos h.1 h.2] at hm
      cases m with
      | zero => simpa using h
      | succ m =>
        simp only [List.length_cons, Nat.succ_lt_succ_iff] at hm
        have := ih (cursor + 1) m hm
        constructor
        · omega
        · have heq : cursor + 1 + m = cursor + (m + 1) := by omega
          rw [heq] at this
          exact this.2
    · rw [extendRun_succ_stop h] at hm
      simp at hm

lemma extendRun_max {dets : List Detection} {norm : String} :
    ∀ (fuel cursor : Nat), dets.length ≤ cursor + fuel →
      cursor + (extendRun fuel dets norm cursor).length < dets.length →
      matchesNorm (dets.getD (cursor + (extendRun fuel dets norm cursor).length) default) norm
        = false := by
  intro fuel
  induction fuel with
  | zero => intro cursor h1 h2; simp [extendRun] at h2; omega
  | succ fuel ih =>
    intro cursor h1 h2
    by_cases h : cursor < dets.length ∧ matchesNorm (dets.getD cursor default) norm = true
    · rw [extendRun_succ_pos h.1 h.2] at h2 ⊢
      simp only [List.length_cons] at h2 ⊢
      have heq : cursor + ((extendRun fuel dets norm (cursor + 1)).length + 1)
          = (cursor + 1) + (extendRun fuel dets norm (cursor + 1)).length := by omega
      rw [heq] at h2 ⊢
      exact ih (cursor + 1) (by omega) h2
    · rw [extendRun_succ_stop h] at h2 ⊢
      simp only [List.length_nil, Nat.add_zero] at h2 ⊢
      rcases Decidable.not_and_iff_or_not.1 h with h3 | h3
      · exact absurd h2 h3
      · exact Bool.not_eq_true _ ▸ h3

lemma extendRun_len_le (dets : List Detection) (norm : String) :
    ∀ (fuel cursor : Nat), (extendRun fuel dets norm cursor).length ≤ fuel := by
  intro fuel
  induction fuel with
  | zero => intro cursor; simp [extendRun]
  | succ fuel ih =>
    intro cursor
    by_cases h : cursor < dets.length ∧ matchesNorm (dets.getD cursor default) norm = true
    · rw [extendRun_succ_pos h.1 h.2]
      simpa using ih (cursor + 1)
    · rw [extendRun_succ_stop h]
      simp

/-! ### `extAt` structure -/

lemma extAt_eq (dets : List Detection) (index : Nat) :
    extAt dets index
      = if jsTruthy (dets.getD index default).normalized = true
        then extendRun (dets.length - (index + 1)) dets
          ((dets.getD index default).normalized.getD "") (index + 1)
        else [] := rfl

lemma extAt_of_not_truthy {dets : List Detection} {index : Nat}
    (h : jsTruthy (dets.getD index default).normalized = false) : extAt dets index = [] := by
  rw [extAt_eq, h]
  simp

lemma extAt_of_truthy {dets : List Detection} {index : Nat}
    (h : jsTruthy (dets.getD index default).normalized = true) :
    extAt dets index
      = extendRun (dets.length - (index + 1)) dets
          ((dets.getD index default).normalized.getD "") (index + 1) := by
  rw [extAt_eq, h]
  simp

lemma extAt_range {dets : List Detection} {index : Nat} :
    extAt dets index = List.range' (index + 1) (extAt dets index).length := by
  cases h : jsTruthy (dets.getD index default).normalized
  · rw [extAt_of_not_truthy h]; rfl
  · rw [extAt_of_truthy h]; exact extendRun_range _ _

lemma extAt_bound {dets : List Detection} {index : Nat} (h : index < dets.length) :
    index + 1 + (extAt dets index).length ≤ dets.length := by
  cases ht : jsTruthy (dets.getD index default).normalized
  · rw [extAt_of_not_truthy ht]; simpa using h
  · rw [extAt_of_truthy ht]
    have := extendRun_len_le dets ((dets.getD index default).normalized.getD "")
      (dets.length - (index + 1)) (index + 1)
    omega

lemma mem_extAt {dets : List Detection} {index j : Nat} (h : j ∈ extAt dets index) :
    index + 1 ≤ j ∧ j < dets.length
      ∧ matchesNorm (dets.getD j default)
          ((dets.getD index default).normalized.getD "") = true := by
  cases ht : jsTruthy (dets.getD index default).normalized
  · rw [extAt_of_not_truthy ht] at h; simp at h
  · rw [extAt_of_truthy ht] at h
    rw [extendRun_range] at h
    rw [mem_range1] at h
    obtain ⟨h1, h2⟩ := h
    have hm := extendRun_matches dets ((dets.getD index default).normalized.getD "")
      (dets.length - (index + 1)) (index + 1) (j - (index + 1)) (by omega)
    have heq : index + 1 + (j - (index + 1)) = j := by omega
    rw [heq] at hm
    exact ⟨h1, hm.1, hm.2⟩

lemma extAt_pos_matches (dets : List Detection) (index j : Nat)
    (h1 : index + 1 ≤ j) (h2 : j < index + 1 + (extAt dets index).length) :
    matchesNorm (dets.getD j default)
      ((dets.getD index default).normalized.getD "") = true := by
  have hj : j ∈ extAt dets index := by
    rw [extAt_range, mem_range1]
    omega
  exact (mem_extAt hj).2.2

lemma extAt_max {dets : List Detection} {index : Nat} (hlt : index < dets.length)
    (ht : jsTruthy (dets.getD index default).normalized = true)
    (h : index + 1 + (extAt dets index).length < dets.length) :
    matchesNorm (dets.getD (index + 1 + (extAt dets index).length) default)
      ((dets.getD index default).normalized.getD "") = false := by
  rw [extAt_of_truthy ht] at h ⊢
  have heq : index + 1 + (extendRun (dets.length - (index + 1)) dets
      ((dets.getD index default).normalized.getD "") (index + 1)).length
    = (index + 1) + (extendRun (dets.length - (index + 1)) dets
      ((dets.getD index default).normalized.getD "") (index + 1)).length := rfl
  exact extendRun_max (dets.length - (index + 1)) (index + 1) (by omega) h

/-! ### `groupLoop` structure -/

lemma groupLoop_of_ge {dets : List Detection} {index gid : Nat}
    (h : dets.length ≤ index) : ∀ fuel, groupLoop fuel dets index gid = [] := by
  intro fuel
  cases fuel with
  | zero => rfl
  | succ fuel => simp [groupLoop, Nat.not_lt.2 h]

lemma groupLoop_succ {fuel : Nat} {dets : List Detection} {index gid : Nat}
    (h : index < dets.length) :
    groupLoop (fuel + 1) dets index gid
      = mkGroup dets gid index (extAt dets index)
        :: groupLoop fuel dets (index + 1 + (extAt dets index).length) (gid + 1) := by
  simp [groupLoop, h]

lemma mkGroup_pageIndices_range {dets : List Detection} {gid index : Nat} :
    (mkGroup dets gid index (extAt dets index)).pageIndices
      = List.range' index ((extAt dets index).length + 1) := by
  show index :: extAt dets index = _
  rw [List.range'_succ, ← extAt_range]

lemma groupLoop_flatten {dets : List Detection} :
    ∀ (fuel index gid : Nat), dets.length ≤ index + fuel →
      ((groupLoop fuel dets index gid).map Group.pageIndices).flatten
        = List.range' index (dets.length - index) := by
  intro fuel
  induction fuel with
  | zero =>
    intro index gid h
    have h0 : dets.length - index = 0 := by omega
    rw [h0]
    rfl
  | succ fuel ih =>
    intro index gid h
    by_cases hlt : index < dets.length
    · rw [groupLoop_succ hlt]
      simp only [List.map_cons, List.flatten_cons]
      rw [ih (index + 1 + (extAt dets index).length) (gid + 1) (by omega)]
      rw [mkGroup_pageIndices_range]
      have hbound := extAt_bound hlt
      have heq : index + 1 + (extAt dets index).length
          = index + ((extAt dets index).length + 1) := by omega
      rw [heq, List.range'_append_1]
      congr 1
      omega
    · rw [groupLoop_of_ge (Nat.not_lt.1 hlt)]
      have h0 : dets.length - index = 0 := by omega
      rw [h0]
      rfl

lemma buildGroups_flatten (dets : List Detection) :
    ((buildGroups dets).map Group.pageIndices).flatten = List.range dets.length := by
  unfold buildGroups
  rw [groupLoop_flatten dets.length 0 1 (by omega), Nat.sub_zero, List.range_eq_range']

lemma groupLoop_mem_bounds {dets : List Detection} {fuel index gid : Nat}
    (hfuel : dets.length ≤ index + fuel) {g : Group} {j : Nat}
    (hg : g ∈ groupLoop fuel dets index gid) (hj : j ∈ g.pageIndices) :
    index ≤ j ∧ j < dets.length := by
  have hmem : j ∈ ((groupLoop fuel dets index gid).map Group.pageIndices).flatten :=
    List.mem_flatten.2 ⟨g.pageIndices, List.mem_map_of_mem _ hg, hj⟩
  rw [groupLoop_flatten fuel index gid hfuel] at hmem
  have := mem_range1.1 hmem
  omega

lemma groupLoop_contiguous {dets : List Detection} :
    ∀ {fuel index gid : Nat} {g : Group}, g ∈ groupLoop fuel dets index gid →
      ∃ s k, g.pageIndices = List.range' s (k + 1) := by
  intro fuel
  induction fuel with
  | zero => intro index gid g hg; simp [groupLoop] at hg
  | succ fuel ih =>
    intro index gid g hg
    by_cases hlt : index < dets.length
    · rw [groupLoop_succ hlt] at hg
      rcases List.mem_cons.1 hg with h1 | h1
      · subst h1
        exact ⟨index, (extAt dets index).length, mkGroup_pageIndices_range⟩
      · exact ih h1
    · rw [groupLoop_of_ge (Nat.not_lt.1 hlt)] at hg
      simp at hg

lemma groupLoop_head_anchor {dets : List Detection} {fuel index gid : Nat}
    {g : Group} {rest : List Group}
    (h : groupLoop fuel dets index gid = g :: rest) : anchorOf g = index := by
  cases fuel with
  | zero => exact absurd h (by simp [groupLoop])
  | succ fuel =>
    by_cases hlt : index < dets.length
    · rw [groupLoop_succ hlt] at h
      injection h with h1 _
      rw [← h1]
      rfl
    · rw [groupLoop_of_ge (Nat.not_lt.1 hlt)] at h
      exact absurd h (by simp)

lemma groupLoop_anchors_chain {dets : List Detection} :
    ∀ (fuel index gid : Nat),
      List.Chain' (· < ·) ((groupLoop fuel dets index gid).map anchorOf) := by
  intro fuel
  induction fuel with
  | zero => intro index gid; simp [groupLoop]
  | succ fuel ih =>
    intro index gid
    by_cases hlt : index < dets.length
    · rw [groupLoop_succ hlt]
      rw [List.map_cons, List.chain'_cons']
      refine ⟨?_, ih _ _⟩
      intro y hy
      cases hrest : groupLoop fuel dets (index + 1 + (extAt dets index).length) (gid + 1) with
      | nil => rw [hrest] at hy; simp at hy
      | cons g2 rest2 =>
        rw [hrest] at hy
        simp only [List.map_cons, List.head?_cons, Option.mem_def, Option.some.injEq] at hy
        subst hy
        have := groupLoop_head_anchor hrest
        have ha : anchorOf (mkGroup dets gid index (extAt dets index)) = index := rfl
        rw [ha, this]
        omega
    · rw [groupLoop_of_ge (Nat.not_lt.1 hlt)]
      simp

lemma groupLoop_group_shape {dets : List Detection} :
    ∀ {fuel index gid : Nat} {g : Group}, g ∈ groupLoop fuel dets index gid →
      g = mkGroup dets g.groupId (anchorOf g) (extAt dets (anchorOf g)) := by
  intro fuel
  induction fuel with
  | zero => intro index gid g hg; simp [groupLoop] at hg
  | succ fuel ih =>
    intro index gid g hg
    by_cases hlt : index < dets.length
    · rw [groupLoop_succ hlt] at hg
      rcases List.mem_cons.1 hg with h1 | h1
      · subst h1
        rfl
      · exact ih h1
    · rw [groupLoop_of_ge (Nat.not_lt.1 hlt)] at hg
      simp at hg

/-! ### Same-group characterization -/

lemma sameGroup_fwd {dets : List Detection} {i : Nat}
    (hi1 : i + 1 < dets.length)
    (ht : jsTruthy (dets.getD i default).normalized = true)
    (heq : (dets.getD i default).normalized = (dets.getD (i + 1) default).normalized) :
    ∀ (fuel index gid : Nat), dets.length ≤ index + fuel → index ≤ i →
      ∃ g ∈ groupLoop fuel dets index gid, i ∈ g.pageIndices ∧ (i + 1) ∈ g.pageIndices := by
  intro fuel
  induction fuel with
  | zero => intro index gid hfuel hle; omega
  | succ fuel ih =>
    intro index gid hfuel hle
    have hlt : index < dets.length := by omega
    by_cases hcase : i + 1 < index + 1 + (extAt dets index).length
    · refine ⟨mkGroup dets gid index (extAt dets index), ?_, ?_, ?_⟩
      · rw [groupLoop_succ hlt]; exact List.mem_cons_self _ _
      · rw [mkGroup_pageIndices_range, mem_range1]; omega
      · rw [mkGroup_pageIndices_range, mem_range1]; omega
    · by_cases hcase2 : index + 1 + (extAt dets index).length ≤ i
      · obtain ⟨g, hg, hmem⟩ := ih (index + 1 + (extAt dets index).length) (gid + 1)
          (by omega) hcase2
        exact ⟨g, by rw [groupLoop_succ hlt]; exact List.mem_cons_of_mem _ hg, hmem⟩
      · exfalso
        have hb : i + 1 = index + 1 + (extAt dets index).length := by omega
        cases htr : jsTruthy (dets.getD index default).normalized with
        | false =>
          have hk0 : (extAt dets index).length = 0 := by
            rw [extAt_of_not_truthy htr]; rfl
          have hieq : i = index := by omega
          rw [hieq] at ht
          rw [ht] at htr
          exact Bool.noConfusion htr
        | true =>
          have hmax := extAt_max hlt htr (by omega)
          obtain ⟨s, hsome, hsne⟩ := jsTruthy_iff.1 htr
          have hgetD : (dets.getD index default).normalized.getD "" = s := by
            rw [hsome]; rfl
          have hinorm : (dets.getD i default).normalized = some s := by
            by_cases hia : i = index
            · rw [hia, hsome]
            · have hm := extAt_pos_matches dets index i (by omega) (by omega)
              rw [hgetD] at hm
              exact (matchesNorm_iff.1 hm).1
          have hnext : matchesNorm (dets.getD (i + 1) default) s = true := by
            rw [matchesNorm_iff]
            exact ⟨by rw [← heq, hinorm], hsne⟩
          rw [hb] at hnext
          rw [hgetD] at hmax
          rw [hnext] at hmax
          exact Bool.noConfusion hmax

lemma sameGroup_bwd {dets : List Detection} {i : Nat}
    (hi1 : i + 1 < dets.length) :
    ∀ (fuel index gid : Nat), dets.length ≤ index + fuel → index ≤ i →
      ∀ g ∈ groupLoop fuel dets index gid, i ∈ g.pageIndices → (i + 1) ∈ g.pageIndices →
        jsTruthy (dets.getD i default).normalized = true
          ∧ (dets.getD i default).normalized = (dets.getD (i + 1) default).normalized := by
  intro fuel
  induction fuel with
  | zero => intro index gid hfuel hle; omega
  | succ fuel ih =>
    intro index gid hfuel hle g hg hi hi2
    have hlt : index < dets.length := by omega
    rw [groupLoop_succ hlt] at hg
    rcases List.mem_cons.1 hg with h1 | h1
    · subst h1
      rw [mkGroup_pageIndices_range, mem_range1] at hi hi2
      have hk1 : 1 ≤ (extAt dets index).length := by omega
      have htr : jsTruthy (dets.getD index default).normalized = true := by
        cases htr : jsTruthy (dets.getD index default).normalized with
        | true => rfl
        | false =>
          rw [extAt_of_not_truthy htr] at hk1
          simp at hk1
      obtain ⟨s, hsome, hsne⟩ := jsTruthy_iff.1 htr
      have hgetD : (dets.getD index default).normalized.getD "" = s := by
        rw [hsome]; rfl
      have hmatch : ∀ j, index + 1 ≤ j → j < index + 1 + (extAt dets index).length →
          (dets.getD j default).normalized = some s := by
        intro j hj1 hj2
        have hm := extAt_pos_matches dets index j hj1 hj2
        rw [hgetD] at hm
        exact (matchesNorm_iff.1 hm).1
      have hnext : (dets.getD (i + 1) default).normalized = some s :=
        hmatch (i + 1) (by omega) (by omega)
      by_cases hia : i = index
      · subst hia
        exact ⟨htr, by rw [hsome, hnext]⟩
      · have hcur : (dets.getD i default).normalized = some s :=
          hmatch i (by omega) (by omega)
        refine ⟨?_, by rw [hcur, hnext]⟩
        rw [hcur]
        exact jsTruthy_some_iff.2 hsne
    · have hbound := groupLoop_mem_bounds
        (by omega : dets.length ≤ (index + 1 + (extAt dets index).length) + fuel) h1 hi
      exact ih (index + 1 + (extAt dets index).length) (gid + 1) (by omega) hbound.1
        g h1 hi hi2

lemma nullNorm_singleton {dets : List Detection} {i : Nat}
    (hf : jsTruthy (dets.getD i default).normalized = false) :
    ∀ (fuel index gid : Nat), dets.length ≤ index + fuel → index ≤ i →
      ∀ g ∈ groupLoop fuel dets index gid, i ∈ g.pageIndices → g.pageIndices = [i] := by
  intro fuel
  induction fuel with
  | zero => intro index gid hfuel hle g hg; simp [groupLoop] at hg
  | succ fuel ih =>
    intro index gid hfuel hle g hg hi
    by_cases hlt : index < dets.length
    · rw [groupLoop_succ hlt] at hg
      rcases List.mem_cons.1 hg with h1 | h1
      · subst h1
        rw [mkGroup_pageIndices_range, mem_range1] at hi
        by_cases hia : i = index
        · subst hia
          show i :: extAt dets i = [i]
          rw [extAt_of_not_truthy hf]
        · exfalso
          have hm := extAt_pos_matches dets index i (by omega) (by omega)
          obtain ⟨hn, hne⟩ := matchesNorm_iff.1 hm
          rw [hn] at hf
          rw [jsTruthy_some_iff.2 hne] at hf
          exact Bool.noConfusion hf
      · have hbound := groupLoop_mem_bounds
          (by omega : dets.length ≤ (index + 1 + (extAt dets index).length) + fuel) h1 hi
        exact ih (index + 1 + (extAt dets index).length) (gid + 1) (by omega) hbound.1
          g h1 hi
    · rw [groupLoop_of_ge (Nat.not_lt.1 hlt)] at hg
      simp at hg

/-! ### `getD` helpers -/

lemma getD_eq_getElem {α : Type u} {l : List α} {i : Nat} {d : α} (h : i < l.length) :
    l.getD i d = l[i] := by
  simp [List.getD_eq_getElem?_getD, List.getElem?_eq_getElem h]

lemma getD_of_ge {α : Type u} {l : List α} {i : Nat} {d : α} (h : l.length ≤ i) :
    l.getD i d = d := by
  simp [List.getD_eq_getElem?_getD, List.getElem?_eq_none h]

lemma getD_set_self {α : Type u} {l : List α} {i : Nat} {a d : α} (h : i < l.length) :
    (l.set i a).getD i d = a := by
  simp [List.getD_eq_getElem?_getD, List.getElem?_set_self h]

lemma getD_set_ne {α : Type u} {l : List α} {i j : Nat} {a d : α} (h : i ≠ j) :
    (l.set i a).getD j d = l.getD j d := by
  simp [List.getD_eq_getElem?_getD, List.getElem?_set_ne h]

lemma getD_replicate {α : Type u} {n i : Nat} {a : α} :
    (List.replicate n a).getD i a = a := by
  rcases Nat.lt_or_ge i n with h | h
  · rw [getD_eq_getElem (by simpa using h)]
    exact List.getElem_replicate _ _
  · exact getD_of_ge (by simpa using h)

lemma getD_mem_of_lt {α : Type u} {l : List α} {i : Nat} {d : α} (h : i < l.length) :
    l.getD i d ∈ l := by
  rw [getD_eq_getElem h]
  exact List.getElem_mem h

/-! ### `fanout` and `resolveGroup` -/

lemma fanout_length (mk : Nat → Nat → PageResult) :
    ∀ (idxs : List Nat) (li : Nat) (slots : List (Option PageResult)),
      (fanout mk idxs li slots).length = slots.length := by
  intro idxs
  induction idxs with
  | nil => intro li slots; rfl
  | cons q rest ih =>
    intro li slots
    show (fanout mk rest (li + 1) (slots.set q _)).length = _
    rw [ih]
    exact List.length_set ..

lemma fanout_getD_not_mem (mk : Nat → Nat → PageResult) :
    ∀ (idxs : List Nat) (li : Nat) (slots : List (Option PageResult)) (p : Nat),
      p ∉ idxs → (fanout mk idxs li slots).getD p none = slots.getD p none := by
  intro idxs
  induction idxs with
  | nil => intro li slots p _; rfl
  | cons q rest ih =>
    intro li slots p hp
    have hpq : p ≠ q := fun he => hp (he ▸ List.mem_cons_self _ _)
    have hprest : p ∉ rest := fun hm => hp (List.mem_cons_of_mem _ hm)
    show (fanout mk rest (li + 1) (slots.set q _)).getD p none = _
    rw [ih _ _ _ hprest, getD_set_ne (Ne.symm hpq)]

lemma fanout_getD_mem (mk : Nat → Nat → PageResult) :
    ∀ (idxs : List Nat) (li : Nat) (slots : List (Option PageResult)) (p : Nat),
      idxs.Nodup → p ∈ idxs → p < slots.length →
      (fanout mk idxs li slots).getD p none = some (mk p (li + idxs.indexOf p)) := by
  intro idxs
  induction idxs with
  | nil => intro li slots p _ hp; simp at hp
  | cons q rest ih =>
    intro li slots p hnodup hp hlen
    by_cases hpq : p = q
    · subst hpq
      have hnrest : p ∉ rest := (List.nodup_cons.1 hnodup).1
      show (fanout mk rest (li + 1) (slots.set p (some (mk p li)))).getD p none = _
      rw [fanout_getD_not_mem mk rest _ _ _ hnrest, getD_set_self hlen]
      simp [List.indexOf_cons_self]
    · have hprest : p ∈ rest := by
        rcases List.mem_cons.1 hp with h | h
        · exact absurd h hpq
        · exact h
      show (fanout mk rest (li + 1) (slots.set q _)).getD p none = _
      rw [ih (li + 1) _ p (List.nodup_cons.1 hnodup).2 hprest (by simpa using hlen)]
      rw [List.indexOf_cons_ne _ (fun he => hpq he.symm)]
      have harith : li + 1 + List.indexOf p rest
          = li + Nat.succ (List.indexOf p rest) := by omega
      rw [harith]

lemma resolveGroup_length (cfg : PoolCfg) (gidx : Nat) (slots : List (Option PageResult)) :
    (resolveGroup cfg gidx slots).length = slots.length := by
  unfold resolveGroup
  cases cfg.outcomes gidx <;> exact fanout_length _ _ _ _

lemma resolveGroup_getD_not_mem {cfg : PoolCfg} {gidx : Nat}
    {slots : List (Option PageResult)} {i : Nat}
    (h : i ∉ (cfg.groups.getD gidx default).pageIndices) :
    (resolveGroup cfg gidx slots).getD i none = slots.getD i none := by
  unfold resolveGroup
  cases cfg.outcomes gidx <;> exact fanout_getD_not_mem _ _ _ _ _ h

lemma resolveGroup_getD_mem {cfg : PoolCfg} {gidx : Nat}
    {slots : List (Option PageResult)} {i : Nat}
    (hnodup : (cfg.groups.getD gidx default).pageIndices.Nodup)
    (hmem : i ∈ (cfg.groups.getD gidx default).pageIndices)
    (hlen : i < slots.length)
    (hgi : groupIndexOf cfg i = gidx) :
    (resolveGroup cfg gidx slots).getD i none = some (expectedSlot cfg i) := by
  unfold resolveGroup expectedSlot
  rw [hgi]
  cases ho : cfg.outcomes gidx with
  | ok po =>
    rw [fanout_getD_mem _ _ _ _ _ hnodup hmem hlen]
    simp [ho]
  | error e =>
    rw [fanout_getD_mem _ _ _ _ _ hnodup hmem hlen]
    simp [ho]

/-! ### Facts from configuration well-formedness -/

lemma cfgWF_buildGroups {cfg : PoolCfg} (h : cfg.groups = buildGroups cfg.dets) :
    cfgWF cfg cfg.dets.length := by
  unfold cfgWF
  rw [h]
  exact buildGroups_flatten cfg.dets

lemma cfgWF_flatten_nodup {cfg : PoolCfg} {N : Nat} (h : cfgWF cfg N) :
    ((cfg.groups.map Group.pageIndices).flatten).Nodup := by
  rw [h]
  exact List.nodup_range N

lemma cfgWF_nodup {cfg : PoolCfg} {N : Nat} (h : cfgWF cfg N) {gi : Nat}
    (hg : gi < cfg.groups.length) :
    (cfg.groups.getD gi default).pageIndices.Nodup := by
  have h1 := (List.nodup_flatten.1 (cfgWF_flatten_nodup h)).1
  apply h1
  rw [getD_eq_getElem hg]
  exact List.mem_map_of_mem _ (List.getElem_mem hg)

lemma cfgWF_lt {cfg : PoolCfg} {N : Nat} (h : cfgWF cfg N) {gi i : Nat}
    (hg : gi < cfg.groups.length)
    (hi : i ∈ (cfg.groups.getD gi default).pageIndices) : i < N := by
  have hmem : i ∈ (cfg.groups.map Group.pageIndices).flatten := by
    apply List.mem_flatten.2
    refine ⟨(cfg.groups.getD gi default).pageIndices, ?_, hi⟩
    rw [getD_eq_getElem hg]
    exact List.mem_map_of_mem _ (List.getElem_mem hg)
  rw [h] at hmem
  exact List.mem_range.1 hmem

lemma cfgWF_disjoint {cfg : PoolCfg} {N : Nat} (h : cfgWF cfg N) {gi gj : Nat}
    (hgi : gi < cfg.groups.length) (hgj : gj < cfg.groups.length) (hne : gi ≠ gj)
    {i : Nat} (hi : i ∈ (cfg.groups.getD gi default).pageIndices) :
    i ∉ (cfg.groups.getD gj default).pageIndices := by
  have hpw := (List.nodup_flatten.1 (cfgWF_flatten_nodup h)).2
  rw [List.pairwise_iff_getElem] at hpw
  have hmaplen : (cfg.groups.map Group.pageIndices).length = cfg.groups.length :=
    List.length_map ..
  rcases Nat.lt_or_ge gi gj with hlt | hge
  · have hd := hpw gi gj (by omega) (by omega) hlt
    rw [List.getElem_map, List.getElem_map] at hd
    intro hj
    rw [getD_eq_getElem hgj] at hj
    rw [getD_eq_getElem hgi] at hi
    exact hd hi hj
  · have hlt2 : gj < gi := by omega
    have hd := hpw gj gi (by omega) (by omega) hlt2
    rw [List.getElem_map, List.getElem_map] at hd
    intro hj
    rw [getD_eq_getElem hgj] at hj
    rw [getD_eq_getElem hgi] at hi
    exact hd.symm hi hj

lemma cfgWF_cover {cfg : PoolCfg} {N : Nat} (h : cfgWF cfg N) {i : Nat} (hiN : i < N) :
    ∃ gi, gi < cfg.groups.length ∧ i ∈ (cfg.groups.getD gi default).pageIndices := by
  have hmem : i ∈ (cfg.groups.map Group.pageIndices).flatten := by
    rw [h]
    exact List.mem_range.2 hiN
  obtain ⟨l, hl, hil⟩ := List.mem_flatten.1 hmem
  obtain ⟨g, hgmem, rfl⟩ := List.mem_map.1 hl
  obtain ⟨gi, hgi, rfl⟩ := List.mem_iff_getElem.1 hgmem
  exact ⟨gi, hgi, by rw [getD_eq_getElem hgi]; exact hil⟩

lemma cfgWF_groupIndexOf {cfg : PoolCfg} {N : Nat} (h : cfgWF cfg N) {gi i : Nat}
    (hg : gi < cfg.groups.length)
    (hi : i ∈ (cfg.groups.getD gi default).pageIndices) :
    groupIndexOf cfg i = gi := by
  have hfind : cfg.groups.findIdx? (fun g => g.pageIndices.contains i) = some gi := by
    rw [List.findIdx?_eq_some_iff_getElem]
    refine ⟨hg, ?_, ?_⟩
    · rw [← getD_eq_getElem hg]
      exact List.elem_eq_true_of_mem hi
    · intro j hji
      have hgjlt : j < cfg.groups.length := by omega
      have hnot := cfgWF_disjoint h hg hgjlt (by omega) hi
      rw [getD_eq_getElem (by omega : j < cfg.groups.length)] at hnot
      intro hc
      exact hnot (List.mem_of_elem_eq_true hc)
  unfold groupIndexOf
  rw [hfind]
  rfl

/-! ### `stepWorker` equations -/

lemma stepWorker_done {cfg : PoolCfg} {st : PoolState} {w : Nat}
    (h : st.workers.getD w .done = .done) : stepWorker cfg st w = st := by
  unfold stepWorker
  rw [h]

lemma stepWorker_failed {cfg : PoolCfg} {st : PoolState} {w : Nat}
    (h : st.workers.getD w .done = .failed) : stepWorker cfg st w = st := by
  unfold stepWorker
  rw [h]

lemma stepWorker_claim {cfg : PoolCfg} {st : PoolState} {w : Nat}
    (h : st.workers.getD w .done = .idle) (hc : st.cursor < cfg.groups.length) :
    stepWorker cfg st w
      = { st with cursor := st.cursor + 1
                  workers := st.workers.set w (.awaiting st.cursor) } := by
  unfold stepWorker
  rw [h]
  simp [hc]

lemma stepWorker_retire {cfg : PoolCfg} {st : PoolState} {w : Nat}
    (h : st.workers.getD w .done = .idle) (hc : ¬st.cursor < cfg.groups.length) :
    stepWorker cfg st w = { st with workers := st.workers.set w .done } := by
  unfold stepWorker
  rw [h]
  simp [hc]

lemma stepWorker_resolve_ok {cfg : PoolCfg} {st : PoolState} {w gidx : Nat} {po : PipeOut}
    (h : st.workers.getD w .done = .awaiting gidx) (ho : cfg.outcomes gidx = .ok po) :
    stepWorker cfg st w
      = { st with slots := resolveGroup cfg gidx st.slots
                  workers := st.workers.set w .idle } := by
  unfold stepWorker
  simp only [h, ho]

lemma stepWorker_resolve_err_cont {cfg : PoolCfg} {st : PoolState} {w gidx : Nat} {e : String}
    (h : st.workers.getD w .done = .awaiting gidx) (ho : cfg.outcomes gidx = .error e)
    (hcoe : cfg.continueOnError = true) :
    stepWorker cfg st w
      = { st with slots := resolveGroup cfg gidx st.slots
                  workers := st.workers.set w .idle } := by
  unfold stepWorker
  simp only [h, ho, hcoe, if_true]

lemma stepWorker_resolve_err_strict {cfg : PoolCfg} {st : PoolState} {w gidx : Nat} {e : String}
    (h : st.workers.getD w .done = .awaiting gidx) (ho : cfg.outcomes gidx = .error e)
    (hcoe : cfg.continueOnError = false) :
    stepWorker cfg st w
      = { st with slots := resolveGroup cfg gidx st.slots
                  workers := st.workers.set w .failed
                  fatal := match st.fatal with
                           | some e0 => some e0
                           | none => some e } := by
  unfold stepWorker
  simp only [h, ho, hcoe, Bool.false_eq_true, if_false]

lemma workers_getD_of_ge {st : PoolState} {w : Nat} (h : st.workers.length ≤ w) :
    st.workers.getD w .done = .done :=
  getD_of_ge h

lemma worker_lt_of_idle {st : PoolState} {w : Nat} {W : Nat}
    (hlen : st.workers.length = W)
    (h : st.workers.getD w .done = .idle) : w < W := by
  rcases Nat.lt_or_ge w st.workers.length with h1 | h1
  · omega
  · rw [workers_getD_of_ge h1] at h
    exact absurd h (by intro hh; exact WStatus.noConfusion hh)

lemma worker_lt_of_awaiting {st : PoolState} {w g : Nat} {W : Nat}
    (hlen : st.workers.length = W)
    (h : st.workers.getD w .done = .awaiting g) : w < W := by
  rcases Nat.lt_or_ge w st.workers.length with h1 | h1
  · omega
  · rw [workers_getD_of_ge h1] at h
    exact absurd h (by intro hh; exact WStatus.noConfusion hh)

/-! ### Invariant preservation -/

lemma poolInv_claim {cfg : PoolCfg} {N W : Nat} {st : PoolState} {w : Nat}
    (hin : PoolInv cfg N W st)
    (hidle : st.workers.getD w .done = .idle) (hc : st.cursor < cfg.groups.length) :
    PoolInv cfg N W
      { st with cursor := st.cursor + 1
                workers := st.workers.set w (.awaiting st.cursor) } := by
  have hwW : w < W := worker_lt_of_idle hin.workersLen hidle
  have hwlen : w < st.workers.length := by rw [hin.workersLen]; exact hwW
  refine ⟨hin.slotsLen, by simpa using hin.workersLen, by dsimp only; omega, ?_, ?_, ?_, ?_,
    ?_, ?_⟩
  · intro w1 g hw1
    dsimp only at hw1 ⊢
    by_cases he : w = w1
    · subst he
      rw [getD_set_self hwlen] at hw1
      injection hw1 with hg
      omega
    · rw [getD_set_ne he] at hw1
      have := hin.awaitLt w1 g hw1
      omega
  · intro w1 w2 g hne h1 h2
    dsimp only at h1 h2
    by_cases he1 : w = w1
    · subst he1
      rw [getD_set_self hwlen] at h1
      injection h1 with hg
      rw [getD_set_ne hne] at h2
      have := hin.awaitLt w2 g h2
      omega
    · rw [getD_set_ne he1] at h1
      by_cases he2 : w = w2
      · subst he2
        rw [getD_set_self hwlen] at h2
        injection h2 with hg
        have := hin.awaitLt w1 g h1
        omega
      · rw [getD_set_ne he2] at h2
        exact hin.awaitInj w1 w2 g hne h1 h2
  · intro w1 hw1W h1
    dsimp only at h1 ⊢
    by_cases he : w = w1
    · subst he
      rw [getD_set_self hwlen] at h1
      exact absurd h1 (by intro hh; exact WStatus.noConfusion hh)
    · rw [getD_set_ne he] at h1
      have := hin.doneCursor w1 hw1W h1
      omega
  · intro g hg1 hg2
    dsimp only at hg1 hg2 ⊢
    have hold := hin.unclaimed g (by omega) hg2
    refine ⟨hold.1, ?_⟩
    intro w1
    by_cases he : w = w1
    · subst he
      rw [getD_set_self hwlen]
      intro hh
      injection hh with hg
      omega
    · rw [getD_set_ne he]
      exact hold.2 w1
  · intro g hg
    dsimp only at hg ⊢
    by_cases hg2 : g < st.cursor
    · rcases hin.claimed g hg2 with ⟨w0, hw0a, hslots⟩ | ⟨hslots, hnoone⟩
      · left
        refine ⟨w0, ?_, hslots⟩
        have hww0 : w ≠ w0 := by
          intro he
          subst he
          rw [hidle] at hw0a
          exact WStatus.noConfusion hw0a
        rw [getD_set_ne hww0]
        exact hw0a
      · right
        refine ⟨hslots, ?_⟩
        intro w1
        by_cases he : w = w1
        · subst he
          rw [getD_set_self hwlen]
          intro hh
          injection hh with hgg
          omega
        · rw [getD_set_ne he]
          exact hnoone w1
    · have hgeq : g = st.cursor := by omega
      left
      refine ⟨w, ?_, ?_⟩
      · rw [getD_set_self hwlen, hgeq]
      · exact (hin.unclaimed g (by omega) (by omega)).1
  · intro e he
    exact hin.fatalSpec e he

lemma poolInv_retire {cfg : PoolCfg} {N W : Nat} {st : PoolState} {w : Nat}
    (hin : PoolInv cfg N W st)
    (hidle : st.workers.getD w .done = .idle) (hc : ¬st.cursor < cfg.groups.length) :
    PoolInv cfg N W { st with workers := st.workers.set w .done } := by
  have hwW : w < W := worker_lt_of_idle hin.workersLen hidle
  have hwlen : w < st.workers.length := by rw [hin.workersLen]; exact hwW
  have hcur : st.cursor = cfg.groups.length := by
    have := hin.cursorLe
    omega
  refine ⟨hin.slotsLen, by simpa using hin.workersLen, hin.cursorLe, ?_, ?_, ?_, ?_, ?_, ?_⟩
  · intro w1 g hw1
    by_cases he : w = w1
    · subst he
      rw [getD_set_self hwlen] at hw1
      exact absurd hw1 (by intro hh; exact WStatus.noConfusion hh)
    · rw [getD_set_ne he] at hw1
      exact hin.awaitLt w1 g hw1
  · intro w1 w2 g hne h1 h2
    by_cases he1 : w = w1
    · subst he1
      rw [getD_set_self hwlen] at h1
      exact absurd h1 (by intro hh; exact WStatus.noConfusion hh)
    · rw [getD_set_ne he1] at h1
      by_cases he2 : w = w2
      · subst he2
        rw [getD_set_self hwlen] at h2
        exact absurd h2 (by intro hh; exact WStatus.noConfusion hh)
      · rw [getD_set_ne he2] at h2
        exact hin.awaitInj w1 w2 g hne h1 h2
  · intro w1 hw1W h1
    exact hcur
  · intro g hg1 hg2
    have hold := hin.unclaimed g hg1 hg2
    refine ⟨hold.1, ?_⟩
    intro w1
    by_cases he : w = w1
    · subst he
      rw [getD_set_self hwlen]
      intro hh
      exact WStatus.noConfusion hh
    · rw [getD_set_ne he]
      exact hold.2 w1
  · intro g hg
    rcases hin.claimed g hg with ⟨w0, hw0a, hslots⟩ | ⟨hslots, hnoone⟩
    · left
      refine ⟨w0, ?_, hslots⟩
      have hww0 : w ≠ w0 := by
        intro he
        subst he
        rw [hidle] at hw0a
        exact WStatus.noConfusion hw0a
      rw [getD_set_ne hww0]
      exact hw0a
    · right
      refine ⟨hslots, ?_⟩
      intro w1
      by_cases he : w = w1
      · subst he
        rw [getD_set_self hwlen]
        intro hh
        exact WStatus.noConfusion hh
      · rw [getD_set_ne he]
        exact hnoone w1
  · intro e he
    exact hin.fatalSpec e he

lemma resolve_slots_expected {cfg : PoolCfg} {N W : Nat} {st : PoolState} {w gidx : Nat}
    (hwf : cfgWF cfg N) (hin : PoolInv cfg N W st)
    (hawait : st.workers.getD w .done = .awaiting gidx) :
    gidx < cfg.groups.length
      ∧ (∀ i ∈ (cfg.groups.getD gidx default).pageIndices,
          (resolveGroup cfg gidx st.slots).getD i none = some (expectedSlot cfg i))
      ∧ ∀ g, g ≠ gidx → g < cfg.groups.length →
          ∀ i ∈ (cfg.groups.getD g default).pageIndices,
            (resolveGroup cfg gidx st.slots).getD i none = st.slots.getD i none := by
  have hglt : gidx < cfg.groups.length :=
    Nat.lt_of_lt_of_le (hin.awaitLt w gidx hawait) hin.cursorLe
  refine ⟨hglt, ?_, ?_⟩
  · intro i hi
    exact resolveGroup_getD_mem (cfgWF_nodup hwf hglt) hi
      (by rw [hin.slotsLen]; exact cfgWF_lt hwf hglt hi)
      (cfgWF_groupIndexOf hwf hglt hi)
  · intro g hne hglt2 i hi
    exact resolveGroup_getD_not_mem (cfgWF_disjoint hwf hglt2 hglt hne hi)

lemma poolInv_resolve_core {cfg : PoolCfg} {N W : Nat} {st : PoolState} {w gidx : Nat}
    (hwf : cfgWF cfg N) (hin : PoolInv cfg N W st)
    (hawait : st.workers.getD w .done = .awaiting gidx)
    (ws : WStatus) (hws1 : ∀ g, ws ≠ .awaiting g) (hws2 : ws ≠ .done)
    (fatal2 : Option String)
    (hfatal : ∀ e, fatal2 = some e → cfg.continueOnError = false
      ∧ ∃ g, g < cfg.groups.length ∧ cfg.outcomes g = Except.error e
        ∧ ∀ i ∈ (cfg.groups.getD g default).pageIndices,
            (resolveGroup cfg gidx st.slots).getD i none = some (expectedSlot cfg i)) :
    PoolInv cfg N W
      { st with slots := resolveGroup cfg gidx st.slots
                workers := st.workers.set w ws
                fatal := fatal2 } := by
  have hwW : w < W := worker_lt_of_awaiting hin.workersLen hawait
  have hwlen : w < st.workers.length := by rw [hin.workersLen]; exact hwW
  obtain ⟨hglt, hexp, hpres⟩ := resolve_slots_expected hwf hin hawait
  refine ⟨?_, by simpa using hin.workersLen, hin.cursorLe, ?_, ?_, ?_, ?_, ?_, ?_⟩
  · show (resolveGroup cfg gidx st.slots).length = N
    rw [resolveGroup_length]
    exact hin.slotsLen
  · intro w1 g hw1
    dsimp only at hw1 ⊢
    by_cases he : w = w1
    · subst he
      rw [getD_set_self hwlen] at hw1
      exact absurd hw1 (hws1 g)
    · rw [getD_set_ne he] at hw1
      exact hin.awaitLt w1 g hw1
  · intro w1 w2 g hne h1 h2
    dsimp only at h1 h2
    by_cases he1 : w = w1
    · subst he1
      rw [getD_set_self hwlen] at h1
      exact absurd h1 (hws1 g)
    · rw [getD_set_ne he1] at h1
      by_cases he2 : w = w2
      · subst he2
        rw [getD_set_self hwlen] at h2
        exact absurd h2 (hws1 g)
      · rw [getD_set_ne he2] at h2
        exact hin.awaitInj w1 w2 g hne h1 h2
  · intro w1 hw1W h1
    dsimp only at h1 ⊢
    by_cases he : w = w1
    · subst he
      rw [getD_set_self hwlen] at h1
      exact absurd h1 hws2
    · rw [getD_set_ne he] at h1
      exact hin.doneCursor w1 hw1W h1
  · intro g hg1 hg2
    dsimp only at hg1 hg2 ⊢
    have hggidx : g ≠ gidx := by
      have := hin.awaitLt w gidx hawait
      omega
    have hold := hin.unclaimed g hg1 hg2
    refine ⟨?_, ?_⟩
    · intro i hi
      rw [hpres g hggidx hg2 i hi]
      exact hold.1 i hi
    · intro w1
      by_cases he : w = w1
      · subst he
        rw [getD_set_self hwlen]
        exact hws1 g
      · rw [getD_set_ne he]
        exact hold.2 w1
  · intro g hg
    dsimp only at hg ⊢
    by_cases hggidx : g = gidx
    · subst hggidx
      right
      refine ⟨hexp, ?_⟩
      intro w1
      by_cases he : w = w1
      · subst he
        rw [getD_set_self hwlen]
        exact hws1 g
      · rw [getD_set_ne he]
        intro hc
        exact hin.awaitInj w1 w g (fun hh => he hh.symm) hc hawait
    · rcases hin.claimed g hg with ⟨w0, hw0a, hnone⟩ | ⟨hsl, hnoone⟩
      · left
        have hww0 : w ≠ w0 := by
          intro he
          subst he
          rw [hawait] at hw0a
          injection hw0a with hgg
          exact hggidx hgg.symm
        refine ⟨w0, by rw [getD_set_ne hww0]; exact hw0a, ?_⟩
        intro i hi
        rw [hpres g hggidx (Nat.lt_of_lt_of_le hg hin.cursorLe) i hi]
        exact hnone i hi
      · right
        refine ⟨?_, ?_⟩
        · intro i hi
          rw [hpres g hggidx (Nat.lt_of_lt_of_le hg hin.cursorLe) i hi]
          exact hsl i hi
        · intro w1
          by_cases he : w = w1
          · subst he
            rw [getD_set_self hwlen]
            exact hws1 g
          · rw [getD_set_ne he]
            exact hnoone w1
  · intro e he
    exact hfatal e he

lemma fatal_carry {cfg : PoolCfg} {N W : Nat} {st : PoolState} {w gidx : Nat}
    (hwf : cfgWF cfg N) (hin : PoolInv cfg N W st)
    (hawait : st.workers.getD w .done = .awaiting gidx) :
    ∀ e, st.fatal = some e → cfg.continueOnError = false
      ∧ ∃ g, g < cfg.groups.length ∧ cfg.outcomes g = Except.error e
        ∧ ∀ i ∈ (cfg.groups.getD g default).pageIndices,
            (resolveGroup cfg gidx st.slots).getD i none = some (expectedSlot cfg i) := by
  intro e he
  obtain ⟨hcoe, g0, hg0, ho, hsl⟩ := hin.fatalSpec e he
  obtain ⟨hglt, hexp, hpres⟩ := resolve_slots_expected hwf hin hawait
  refine ⟨hcoe, g0, hg0, ho, ?_⟩
  by_cases he2 : g0 = gidx
  · subst he2
    exact hexp
  · intro i hi
    rw [hpres g0 he2 hg0 i hi]
    exact hsl i hi

lemma poolInv_step {cfg : PoolCfg} {N W : Nat} {st : PoolState}
    (hwf : cfgWF cfg N) (hin : PoolInv cfg N W st) (w : Nat) :
    PoolInv cfg N W (stepWorker cfg st w) := by
  cases hstat : st.workers.getD w .done with
  | done =>
    rw [stepWorker_done hstat]
    exact hin
  | failed =>
    rw [stepWorker_failed hstat]
    exact hin
  | idle =>
    by_cases hc : st.cursor < cfg.groups.length
    · rw [stepWorker_claim hstat hc]
      exact poolInv_claim hin hstat hc
    · rw [stepWorker_retire hstat hc]
      exact poolInv_retire hin hstat hc
  | awaiting gidx =>
    cases ho : cfg.outcomes gidx with
    | ok po =>
      rw [stepWorker_resolve_ok hstat ho]
      exact poolInv_resolve_core hwf hin hstat .idle
        (fun g hh => WStatus.noConfusion hh) (fun hh => WStatus.noConfusion hh)
        st.fatal (fatal_carry hwf hin hstat)
    | error e =>
      cases hcoe : cfg.continueOnError with
      | true =>
        rw [stepWorker_resolve_err_cont hstat ho hcoe]
        exact poolInv_resolve_core hwf hin hstat .idle
          (fun g hh => WStatus.noConfusion hh) (fun hh => WStatus.noConfusion hh)
          st.fatal (fatal_carry hwf hin hstat)
      | false =>
        rw [stepWorker_resolve_err_strict hstat ho hcoe]
        apply poolInv_resolve_core hwf hin hstat .failed
          (fun g hh => WStatus.noConfusion hh) (fun hh => WStatus.noConfusion hh)
        intro e1 he1
        cases hf : st.fatal with
        | some e0 =>
          rw [hf] at he1
          injection he1 with hee
          rw [← hee]
          exact fatal_carry hwf hin hstat e0 hf
        | none =>
          rw [hf] at he1
          injection he1 with hee
          rw [← hee]
          obtain ⟨hglt, hexp, hpres⟩ := resolve_slots_expected hwf hin hstat
          exact ⟨hcoe, gidx, hglt, ho, hexp⟩

/-! ### Initial state, settling, and the pool guarantees -/

lemma poolInv_init (cfg : PoolCfg) (N : Nat) :
    PoolInv cfg N (min cfg.workerCount cfg.groups.length) (initPool cfg N) := by
  have hworkers : ∀ w, (initPool cfg N).workers.getD w .done = .idle
      ∨ (initPool cfg N).workers.getD w .done = .done := by
    intro w
    show (List.replicate _ WStatus.idle).getD w .done = _ ∨ _
    rcases Nat.lt_or_ge w (min cfg.workerCount cfg.groups.length) with h | h
    · left
      rw [getD_eq_getElem (by simp only [List.length_replicate]; exact h)]
      exact List.getElem_replicate _ _
    · right
      show (List.replicate (min cfg.workerCount cfg.groups.length) WStatus.idle).getD w
        WStatus.done = WStatus.done
      exact getD_of_ge (by simp only [List.length_replicate]; exact h)
  refine ⟨?_, ?_, ?_, ?_, ?_, ?_, ?_, ?_, ?_⟩
  · simp [initPool]
  · simp [initPool]
  · show 0 ≤ cfg.groups.length
    omega
  · intro w g hw
    rcases hworkers w with h | h <;> rw [h] at hw <;> exact WStatus.noConfusion hw
  · intro w1 w2 g hne h1 h2
    rcases hworkers w1 with h | h <;> rw [h] at h1 <;> exact WStatus.noConfusion h1
  · intro w hwW h1
    rcases hworkers w with h | h
    · rw [h] at h1
      exact absurd h1 (by intro hh; exact WStatus.noConfusion hh)
    · exfalso
      have hlen : (initPool cfg N).workers.length = min cfg.workerCount cfg.groups.length := by
        simp [initPool]
      rcases Nat.lt_or_ge w (initPool cfg N).workers.length with h2 | h2
      · have : (initPool cfg N).workers.getD w .done = .idle := by
          rw [getD_eq_getElem h2]
          exact List.getElem_replicate _ _
        rw [this] at h1
        exact WStatus.noConfusion h1
      · rw [hlen] at h2
        omega
  · intro g hg1 hg2
    refine ⟨?_, ?_⟩
    · intro i hi
      exact getD_replicate
    · intro w hw
      rcases hworkers w with h | h <;> rw [h] at hw <;> exact WStatus.noConfusion hw
  · intro g hg
    exact absurd hg (by show ¬g < 0; omega)
  · intro e he
    exact Option.noConfusion he

lemma poolSettle_inv {cfg : PoolCfg} {N W : Nat} (hwf : cfgWF cfg N) :
    ∀ (sched : List Nat) (st st1 : PoolState), PoolInv cfg N W st →
      poolSettle cfg st sched = some st1 → PoolInv cfg N W st1 := by
  intro sched
  induction sched with
  | nil =>
    intro st st1 hin h
    unfold poolSettle at h
    by_cases hs : (settleCheck st).isSome
    · rw [if_pos hs] at h
      injection h with h
      rw [← h]
      exact hin
    · rw [if_neg hs] at h
      exact Option.noConfusion h
  | cons w rest ih =>
    intro st st1 hin h
    unfold poolSettle at h
    by_cases hs : (settleCheck st).isSome
    · rw [if_pos hs] at h
      injection h with h
      rw [← h]
      exact hin
    · rw [if_neg hs] at h
      exact ih _ _ (poolInv_step hwf hin w) h

lemma settleCheck_some_error {st : PoolState} {e : String}
    (h : settleCheck st = some (.error e)) : st.fatal = some e := by
  unfold settleCheck at h
  cases hf : st.fatal with
  | some e0 =>
    rw [hf] at h
    injection h with h
    injection h with h
    rw [h]
  | none =>
    rw [hf] at h
    by_cases hall : st.workers.all (fun s => s == .done) = true
    · rw [if_pos hall] at h
      injection h with h
      exact Except.noConfusion h
    · rw [if_neg hall] at h
      exact Option.noConfusion h

lemma settleCheck_some_ok {st : PoolState} {sl : List (Option PageResult)}
    (h : settleCheck st = some (.ok sl)) :
    st.fatal = none ∧ st.workers.all (fun s => s == .done) = true ∧ sl = st.slots := by
  unfold settleCheck at h
  cases hf : st.fatal with
  | some e0 =>
    rw [hf] at h
    injection h with h
    exact Except.noConfusion h
  | none =>
    rw [hf] at h
    by_cases hall : st.workers.all (fun s => s == .done) = true
    · rw [if_pos hall] at h
      injection h with h
      injection h with h
      exact ⟨rfl, hall, h.symm⟩
    · rw [if_neg hall] at h
      exact Option.noConfusion h

lemma poolSettle_ok_slots {cfg : PoolCfg} {N W : Nat} (hwf : cfgWF cfg N) (hW : 1 ≤ W)
    {st st1 : PoolState} {sched : List Nat} (hin : PoolInv cfg N W st)
    (hset : poolSettle cfg st sched = some st1)
    {sl : List (Option PageResult)} (hok : settleCheck st1 = some (.ok sl)) :
    ∀ i, i < N → sl.getD i none = some (expectedSlot cfg i) := by
  have hin1 := poolSettle_inv hwf sched st st1 hin hset
  obtain ⟨hf, hall, hsl⟩ := settleCheck_some_ok hok
  subst hsl
  intro i hiN
  have h0 : st1.workers.getD 0 .done = .done := by
    have hlen : 0 < st1.workers.length := by rw [hin1.workersLen]; omega
    have := List.all_eq_true.1 hall _ (getD_mem_of_lt (d := WStatus.done) hlen)
    exact beq_iff_eq.1 this
  have hcur := hin1.doneCursor 0 (by omega) h0
  obtain ⟨gi, hgi, hmem⟩ := cfgWF_cover hwf hiN
  rcases hin1.claimed gi (by omega) with ⟨w0, hw0a, _⟩ | ⟨hexp, _⟩
  · exfalso
    have hw0len : w0 < st1.workers.length := by
      rcases Nat.lt_or_ge w0 st1.workers.length with h | h
      · exact h
      · rw [workers_getD_of_ge h] at hw0a
        exact absurd hw0a (by intro hh; exact WStatus.noConfusion hh)
    have hd := beq_iff_eq.1
      (List.all_eq_true.1 hall _ (getD_mem_of_lt (d := WStatus.done) hw0len))
    rw [hw0a] at hd
    exact WStatus.noConfusion hd
  · exact hexp i hmem

lemma poolSettle_error_marks {cfg : PoolCfg} {N W : Nat} (hwf : cfgWF cfg N)
    {st st1 : PoolState} {sched : List Nat} {e : String} (hin : PoolInv cfg N W st)
    (hset : poolSettle cfg st sched = some st1)
    (herr : settleCheck st1 = some (.error e)) :
    cfg.continueOnError = false ∧ st1.fatal = some e
      ∧ ∃ g, g < cfg.groups.length ∧ cfg.outcomes g = Except.error e
        ∧ ∀ i ∈ (cfg.groups.getD g default).pageIndices,
            st1.slots.getD i none = some (expectedSlot cfg i) := by
  have hin1 := poolSettle_inv hwf sched st st1 hin hset
  have hf := settleCheck_some_error herr
  obtain ⟨hcoe, g, hg, ho, hsl⟩ := hin1.fatalSpec e hf
  exact ⟨hcoe, hf, g, hg, ho, hsl⟩

lemma expectedSlot_of_ok {cfg : PoolCfg} {N : Nat} (hwf : cfgWF cfg N) {gi i : Nat}
    {po : PipeOut} (hg : gi < cfg.groups.length)
    (hi : i ∈ (cfg.groups.getD gi default).pageIndices)
    (ho : cfg.outcomes gi = .ok po) :
    expectedSlot cfg i
      = successResult cfg.dets (cfg.groups.getD gi default) po i
          ((cfg.groups.getD gi default).pageIndices.indexOf i) := by
  unfold expectedSlot
  rw [cfgWF_groupIndexOf hwf hg hi]
  simp [ho]

lemma expectedSlot_of_error {cfg : PoolCfg} {N : Nat} (hwf : cfgWF cfg N) {gi i : Nat}
    {e : String} (hg : gi < cfg.groups.length)
    (hi : i ∈ (cfg.groups.getD gi default).pageIndices)
    (ho : cfg.outcomes gi = .error e) :
    expectedSlot cfg i
      = failureResult cfg.dets (cfg.groups.getD gi default) e i
          ((cfg.groups.getD gi default).pageIndices.indexOf i) := by
  unfold expectedSlot
  rw [cfgWF_groupIndexOf hwf hg hi]
  simp [ho]

lemma expectedSlot_congr {cfg cfg2 : PoolCfg} {i : Nat}
    (hd : cfg2.dets = cfg.dets) (hg : cfg2.groups = cfg.groups)
    (ho : cfg2.outcomes (groupIndexOf cfg i) = cfg.outcomes (groupIndexOf cfg i)) :
    expectedSlot cfg2 i = expectedSlot cfg i := by
  have hgi : groupIndexOf cfg2 i = groupIndexOf cfg i := by
    unfold groupIndexOf
    rw [hg]
  unfold expectedSlot
  rw [hgi]
  dsimp only
  rw [hd, hg, ho]

lemma pdfGenerateModel_ok_inv {pageImages : List String} {opts : GenOptions}
    {detect : String → Except String RawDetection} {outcomes : Nat → Except String PipeOut}
    {sched : List Nat} {mo : Except String String} {r : GenReport}
    (hskip : opts.skipPages < pageImages.length)
    (h : pdfGenerateModel pageImages opts detect outcomes sched mo = some (.ok r)) :
    ∃ dets st,
      detectPass detect opts.continueOnError (pageImages.drop opts.skipPages) = .ok dets
      ∧ poolSettle
          { dets := dets, groups := buildGroups dets, outcomes := outcomes,
            continueOnError := opts.continueOnError, workerCount := opts.concurrency }
          (initPool
            { dets := dets, groups := buildGroups dets, outcomes := outcomes,
              continueOnError := opts.continueOnError, workerCount := opts.concurrency }
            (pageImages.drop opts.skipPages).length) sched = some st
      ∧ st.fatal = none
      ∧ r = { pageImages := pageImages, processedPages := st.slots,
              skipPagesEcho := some opts.skipPages,
              concurrencyEcho := some (min opts.concurrency (buildGroups dets).length),
              groupsOut := some (buildGroups dets),
              mergedPdfPath := some (if opts.mergeOutput then mergeToPath mo else none) }
      := by
  have hnle : ¬pageImages.length ≤ opts.skipPages := by omega
  unfold pdfGenerateModel at h
  rw [if_neg hnle] at h
  dsimp only at h
  cases hdp : detectPass detect opts.continueOnError (pageImages.drop opts.skipPages) with
  | error e1 =>
    rw [hdp] at h
    simp at h
  | ok dets =>
    rw [hdp] at h
    dsimp only at h
    cases hps : poolSettle
        { dets := dets, groups := buildGroups dets, outcomes := outcomes,
          continueOnError := opts.continueOnError, workerCount := opts.concurrency }
        (initPool
          { dets := dets, groups := buildGroups dets, outcomes := outcomes,
            continueOnError := opts.continueOnError, workerCount := opts.concurrency }
          (pageImages.drop opts.skipPages).length) sched with
    | none =>
      rw [hps] at h
      simp at h
    | some st =>
      rw [hps] at h
      dsimp only at h
      cases hf : st.fatal with
      | some e2 =>
        rw [hf] at h
        simp at h
      | none =>
        rw [hf] at h
        dsimp only at h
        injection h with h
        injection h with h
        exact ⟨dets, st, rfl, hps, hf, h.symm⟩

/-! ### Claim theorems -/

/-- Claim C2: for every detection sequence of length N the grouping loop's
groups partition `[0..N)` — their `pageIndices`, concatenated in group order,
are exactly `List.range N`; within every group the `pageIndices` form a
nonempty contiguous strictly increasing block `range' s (k+1)`; and groups are
ordered by their first page index (anchors strictly increase). -/
theorem claim_C2 (dets : List Detection) :
    ((buildGroups dets).map Group.pageIndices).flatten = List.range dets.length
      ∧ (∀ g ∈ buildGroups dets, ∃ s k, g.pageIndices = List.range' s (k + 1))
      ∧ List.Chain' (· < ·) ((buildGroups dets).map anchorOf) :=
  ⟨buildGroups_flatten dets, fun _ hg => groupLoop_contiguous hg,
   groupLoop_anchors_chain dets.length 0 1⟩

/-- Claim C3, counterexample to the claim as stated: two adjacent detections
whose `normalized` values are non-null and equal (`some ""`, raw heading
`"***"`) are NOT placed in the same group — the grouping guard also requires
truthiness, and the empty string is falsy. -/
theorem claim_C3_counterexample :
    (detsStars.getD 0 default).normalized ≠ none
      ∧ (detsStars.getD 0 default).normalized = (detsStars.getD 1 default).normalized
      ∧ sameGroupB detsStars 0 1 = false := by decide

/-- Claim C3 (amended): for every detection sequence, (1) if
`detections[i].normalized` is non-null, NON-EMPTY (truthy) and equal to
`detections[i+1].normalized` then pages i and i+1 land in the same group; and
(2) a page whose normalized name is null or empty always forms a singleton
group that never merges with any neighbor. The two halves are independent:
each holds under its own hypotheses alone. -/
theorem claim_C3 :
    (∀ (dets : List Detection) (i : Nat),
        i + 1 < dets.length →
        jsTruthy (dets.getD i default).normalized = true →
        (dets.getD i default).normalized = (dets.getD (i + 1) default).normalized →
        sameGroupB dets i (i + 1) = true)
      ∧ (∀ (dets : List Detection) (j : Nat) (g : Group),
          jsTruthy (dets.getD j default).normalized = false →
          g ∈ buildGroups dets → j ∈ g.pageIndices →
          g.pageIndices = [j]) := by
  constructor
  · intro dets i h1 h2 h3
    obtain ⟨g1, hg1, hi1, hi2⟩ := sameGroup_fwd h1 h2 h3 dets.length 0 1 (by omega) (by omega)
    unfold sameGroupB buildGroups
    rw [List.any_eq_true]
    refine ⟨g1, hg1, ?_⟩
    rw [Bool.and_eq_true]
    exact ⟨List.elem_eq_true_of_mem hi1, List.elem_eq_true_of_mem hi2⟩
  · intro dets j g hnull hg hjg
    exact nullNorm_singleton hnull dets.length 0 1 (by omega) (by omega) g hg hjg

/-- Witness for C3: the merge half at `detsKitchen` (pages 0 and 1, truthy
equal normalized "kitchen", share a group) and the singleton half at
`detsStars` (the `"***"` page 0, normalized `some ""`, is a singleton). -/
theorem claim_C3_witness :
    sameGroupB detsKitchen 0 1 = true
      ∧ ((buildGroups detsStars).getD 0 default).pageIndices = [0] :=
  ⟨claim_C3.1 detsKitchen 0 (by decide) (by decide) (by decide),
   claim_C3.2 detsStars 0 ((buildGroups detsStars).getD 0 default)
     (by decide) (by decide) (by decide)⟩

/-- Claim C5, counterexample to the claim as stated: a whitespace-only input
does not map to `null` — it maps to the empty string (`!name` is false for
`" "`, and the replace/trim chain empties it). -/
theorem claim_C5_counterexample :
    normalizeRoomName (some " ") = some "" ∧ normalizeRoomName (some " ") ≠ none := by
  decide

/-- Claim C5 (amended): `normalizeRoomName` maps `null` and the empty string
to `null`; a whitespace-only input maps to the (falsy) empty string; every
non-null output is in canonical form (lower-case alphanumerics and single
interior spaces, trimmed); and two ADJACENT pages land in the same room-group
iff their normalized forms are truthy (non-null, non-empty) and equal. -/
theorem claim_C5 (s : String) (dets : List Detection) (i : Nat)
    (hne : s.data ≠ []) (hws : ∀ c ∈ s.data, isJsSpace c = true)
    (hi : i + 1 < dets.length) :
    normalizeRoomName none = none
      ∧ normalizeRoomName (some "") = none
      ∧ normalizeRoomName (some s) = some ""
      ∧ (∀ t u, normalizeRoomName (some t) = some u → canonChars u.data)
      ∧ (sameGroupB dets i (i + 1) = true
          ↔ jsTruthy (dets.getD i default).normalized = true
            ∧ (dets.getD i default).normalized = (dets.getD (i + 1) default).normalized) := by
  refine ⟨rfl, by decide, normalizeRoomName_whitespace hne hws, ?_, ?_, ?_⟩
  · intro t u hu
    by_cases ht : t = ""
    · subst ht
      simp [normalizeRoomName] at hu
    · rw [normalizeRoomName_some_of_ne ht] at hu
      injection hu with hu
      rw [← hu]
      exact canon_normalizeChars t.data
  · intro hsame
    unfold sameGroupB at hsame
    rw [List.any_eq_true] at hsame
    obtain ⟨g, hg, hmem⟩ := hsame
    rw [Bool.and_eq_true] at hmem
    exact sameGroup_bwd hi dets.length 0 1 (by omega) (by omega) g hg
      (List.mem_of_elem_eq_true hmem.1) (List.mem_of_elem_eq_true hmem.2)
  · intro ⟨h2, h3⟩
    obtain ⟨g1, hg1, hi1, hi2⟩ := sameGroup_fwd hi h2 h3 dets.length 0 1 (by omega) (by omega)
    unfold sameGroupB buildGroups
    rw [List.any_eq_true]
    refine ⟨g1, hg1, ?_⟩
    rw [Bool.and_eq_true]
    exact ⟨List.elem_eq_true_of_mem hi1, List.elem_eq_true_of_mem hi2⟩

/-- Witness for C5 at the whitespace string `" "` and `detsKitchen`. -/
theorem claim_C5_witness :
    normalizeRoomName none = none
      ∧ normalizeRoomName (some "") = none
      ∧ normalizeRoomName (some " ") = some ""
      ∧ (∀ t u, normalizeRoomName (some t) = some u → canonChars u.data)
      ∧ (sameGroupB detsKitchen 0 1 = true
          ↔ jsTruthy (detsKitchen.getD 0 default).normalized = true
            ∧ (detsKitchen.getD 0 default).normalized
                = (detsKitchen.getD 1 default).normalized) :=
  claim_C5 " " detsKitchen 0 (by decide) (by decide) (by decide)

/-- Claim C7, counterexample to the claim as stated: with both a raw heading
`"KITCHEN 1"` and a cleaned name `"Kitchen"` present, the group label is the
CLEANED name, not the raw OCR text — `detection?.roomName || detection?.rawText`
prefers `roomName`. -/
theorem claim_C7_counterexample :
    (detsLabel.getD 0 default).rawText = some "KITCHEN 1"
      ∧ ((buildGroups detsLabel).getD 0 default).roomName = some "Kitchen"
      ∧ ((buildGroups detsLabel).getD 0 default).roomName
          ≠ (detsLabel.getD 0 default).rawText := by decide

/-- Claim C7 (amended): the group's `roomName` is taken from the anchor
detection preferring the CLEANED name (`roomName`) and falling back to the raw
OCR text; the raw text is preferred only for the overlay title — when the
anchor's trimmed raw text is truthy, `titleText` is exactly that trimmed raw
text. -/
theorem claim_C7 (dets : List Detection) (g : Group) (hg : g ∈ buildGroups dets) :
    g.roomName = jsOrNull (dets.getD (anchorOf g) default).roomName
        (dets.getD (anchorOf g) default).rawText
      ∧ (jsTruthy (jsAndTrim (dets.getD (anchorOf g) default).rawText) = true →
          titleText dets g
            = (jsAndTrim (dets.getD (anchorOf g) default).rawText).getD "") := by
  have hshape := groupLoop_group_shape hg
  constructor
  · rw [hshape]
    rfl
  · intro htr
    have hpi : g.pageIndices = anchorOf g :: extAt dets (anchorOf g) := by
      conv_lhs => rw [hshape]
      rfl
    unfold titleText
    rw [hpi]
    dsimp only
    rw [jsOr_of_truthy htr, jsOr_of_truthy htr, jsOr_of_truthy htr, if_pos htr]

/-- Witness for C7 at `detsLabel`: the group label is `"Kitchen"` and the
overlay title is the trimmed raw heading `"KITCHEN 1"`. -/
theorem claim_C7_witness :
    ((buildGroups detsLabel).getD 0 default).roomName
        = jsOrNull (detsLabel.getD 0 default).roomName (detsLabel.getD 0 default).rawText
      ∧ (jsTruthy (jsAndTrim (detsLabel.getD 0 default).rawText) = true →
          titleText detsLabel ((buildGroups detsLabel).getD 0 default)
            = (jsAndTrim (detsLabel.getD 0 default).rawText).getD "") := by
  have h := claim_C7 detsLabel ((buildGroups detsLabel).getD 0 default) (by decide)
  have ha : anchorOf ((buildGroups detsLabel).getD 0 default) = 0 := by decide
  rw [ha] at h
  exact h

/-- Claim C8, counterexample to the claim as stated: `"***"` normalizes to the
non-null empty string, and re-normalizing that output yields `null`, not the
same result — the normalizer is not idempotent on empty outputs. -/
theorem claim_C8_counterexample :
    normalizeRoomName (some "***") = some ""
      ∧ normalizeRoomName (normalizeRoomName (some "***")) = none
      ∧ normalizeRoomName (normalizeRoomName (some "***"))
          ≠ normalizeRoomName (some "***") := by decide

/-- Claim C8 (amended): `normalizeRoomName` is idempotent on its NON-EMPTY
outputs — when `normalizeRoomName (some s) = some t` with `t ≠ ""`,
re-normalizing yields `some t` again; when the output is the empty string,
re-normalizing collapses it to `null`. -/
theorem claim_C8 (s t : String) (h : normalizeRoomName (some s) = some t) :
    (t ≠ "" → normalizeRoomName (normalizeRoomName (some s)) = some t)
      ∧ (t = "" → normalizeRoomName (normalizeRoomName (some s)) = none) := by
  constructor
  · intro ht
    rw [h]
    exact normalizeRoomName_renormalize h ht
  · intro ht
    rw [h, ht]
    decide

/-- Witness for C8 at `"  KITCHEN  1 "`, whose normalization `"kitchen 1"` is
already canonical. -/
theorem claim_C8_witness :
    ("kitchen 1" ≠ "" →
        normalizeRoomName (normalizeRoomName (some "  KITCHEN  1 ")) = some "kitchen 1")
      ∧ ("kitchen 1" = "" →
          normalizeRoomName (normalizeRoomName (some "  KITCHEN  1 ")) = none) :=
  claim_C8 "  KITCHEN  1 " "kitchen 1" (by decide)

/-- Claim C1, counterexample to the claim as stated: under strict mode
(`continueOnError` false) with a failing group, the pool rejects — the caller
receives the error, not a partial report — and at the moment of rejection the
unclaimed group's slot (index 1) is still unset. -/
theorem claim_C1_counterexample :
    poolOutcome cfgBoom (initPool cfgBoom 2) [0, 0] = some (.error "boom")
      ∧ (poolSettle cfgBoom (initPool cfgBoom 2) [0, 0]).map (fun st => st.slots.getD 1 none)
          = some none := by decide

/-- Claim C1 (amended): whenever the worker pool settles successfully — the
only mode in which `pdfGenerate` resumes normally, and the guaranteed outcome
when `continueOnError` is true or no group's pipeline fails — every page index
below the page count holds exactly one `PageResult`, fully determined by the
page's group and that group's pipeline outcome.  Under a strict-mode fatal
failure the pool instead rejects and the caller receives the error, not a
report (see `claim_C1_counterexample`). -/
theorem claim_C1 (cfg : PoolCfg) (sched : List Nat) (sl : List (Option PageResult)) (i : Nat)
    (hg : cfg.groups = buildGroups cfg.dets)
    (hW : 1 ≤ min cfg.workerCount cfg.groups.length)
    (hout : poolOutcome cfg (initPool cfg cfg.dets.length) sched = some (.ok sl))
    (hiN : i < cfg.dets.length) :
    sl.getD i none = some (expectedSlot cfg i) := by
  have hwf := cfgWF_buildGroups hg
  unfold poolOutcome at hout
  cases hset : poolSettle cfg (initPool cfg cfg.dets.length) sched with
  | none =>
    rw [hset] at hout
    exact Option.noConfusion hout
  | some st1 =>
    rw [hset] at hout
    exact poolSettle_ok_slots hwf hW (poolInv_init cfg cfg.dets.length) hset hout i hiN

/-- Witness for C1 at the all-success two-group run `cfgOk`. -/
theorem claim_C1_witness :
    slOk.getD 0 none = some (expectedSlot cfgOk 0) :=
  claim_C1 cfgOk schedOk slOk 0 rfl (by decide) (by decide) (by decide)

/-- Claim C4, counterexample to the claim as stated: there is no abort flag.
After worker 1's group rejects fatally (fatal is set), idle worker 2 still
claims a new group — the cursor advances and the worker moves to `awaiting 1`. -/
theorem claim_C4_counterexample :
    (runPool cfgBoom3 (initPool cfgBoom3 3) [0, 0]).fatal = some "boom"
      ∧ (stepWorker cfgBoom3 (runPool cfgBoom3 (initPool cfgBoom3 3) [0, 0]) 1).cursor
          = (runPool cfgBoom3 (initPool cfgBoom3 3) [0, 0]).cursor + 1
      ∧ (stepWorker cfgBoom3 (runPool cfgBoom3 (initPool cfgBoom3 3) [0, 0]) 1).workers.getD 1
          WStatus.done = WStatus.awaiting 1 := by decide

/-- Claim C4 (amended): when `continueOnError` is false and the pool rejects
with error `e`, strict mode is in force, the rejection carries the first
failing group's error, and at the moment the rejection reaches the caller every
page of that group has already been marked failed with `e` (the catch branch
runs before the rethrow).  There is no abort flag: still-running workers keep
claiming the remaining groups, invisibly to the caller
(see `claim_C4_counterexample`). -/
theorem claim_C4 (cfg : PoolCfg) (sched : List Nat) (st1 : PoolState) (e : String)
    (hg : cfg.groups = buildGroups cfg.dets)
    (hset : poolSettle cfg (initPool cfg cfg.dets.length) sched = some st1)
    (herr : settleCheck st1 = some (.error e)) :
    cfg.continueOnError = false ∧ st1.fatal = some e
      ∧ ∃ g, g < cfg.groups.length ∧ cfg.outcomes g = Except.error e
        ∧ ∀ i ∈ (cfg.groups.getD g default).pageIndices,
            st1.slots.getD i none
              = some (failureResult cfg.dets (cfg.groups.getD g default) e i
                  ((cfg.groups.getD g default).pageIndices.indexOf i)) := by
  have hwf := cfgWF_buildGroups hg
  obtain ⟨hcoe, hf, g, hglt, ho, hsl⟩ :=
    poolSettle_error_marks hwf (poolInv_init cfg cfg.dets.length) hset herr
  refine ⟨hcoe, hf, g, hglt, ho, ?_⟩
  intro i hi
  rw [hsl i hi, expectedSlot_of_error hwf hglt hi ho]

/-- Witness for C4 at the strict failing run `cfgBoom`. -/
theorem claim_C4_witness :
    cfgBoom.continueOnError = false ∧ stBoom.fatal = some "boom"
      ∧ ∃ g, g < cfgBoom.groups.length ∧ cfgBoom.outcomes g = Except.error "boom"
        ∧ ∀ i ∈ (cfgBoom.groups.getD g default).pageIndices,
            stBoom.slots.getD i none
              = some (failureResult cfgBoom.dets (cfgBoom.groups.getD g default) "boom" i
                  ((cfgBoom.groups.getD g default).pageIndices.indexOf i)) :=
  claim_C4 cfgBoom [0, 0] stBoom "boom" rfl (by decide) (by decide)

/-- Claim C6: with continue-on-error enabled and group `f` the only failing
group, every page of `f` receives the failure `PageResult` carrying the error
(with the group's `groupId` and sibling list, per `failureResult`), every other
group's pages receive the success `PageResult` of their own outcome, and all
slots outside group `f` coincide with those of a run whose oracle agrees off
`f` (in particular a failure-free run) — per-group isolation. -/
theorem claim_C6 (cfg cfg2 : PoolCfg) (f : Nat) (e : String)
    (sched sched2 : List Nat) (sl sl2 : List (Option PageResult))
    (hg : cfg.groups = buildGroups cfg.dets)
    (hW : 1 ≤ min cfg.workerCount cfg.groups.length)
    (hW2 : 1 ≤ min cfg2.workerCount cfg2.groups.length)
    (hflt : f < cfg.groups.length)
    (hfail : cfg.outcomes f = .error e)
    (h2d : cfg2.dets = cfg.dets) (h2g : cfg2.groups = cfg.groups)
    (hothers : ∀ gidx, gidx ≠ f → cfg2.outcomes gidx = cfg.outcomes gidx)
    (hout : poolOutcome cfg (initPool cfg cfg.dets.length) sched = some (.ok sl))
    (hout2 : poolOutcome cfg2 (initPool cfg2 cfg2.dets.length) sched2 = some (.ok sl2)) :
    (∀ i ∈ (cfg.groups.getD f default).pageIndices,
        sl.getD i none = some (failureResult cfg.dets (cfg.groups.getD f default) e i
          ((cfg.groups.getD f default).pageIndices.indexOf i)))
      ∧ (∀ gidx, gidx < cfg.groups.length → gidx ≠ f →
          ∀ po, cfg.outcomes gidx = .ok po →
          ∀ i ∈ (cfg.groups.getD gidx default).pageIndices,
            sl.getD i none = some (successResult cfg.dets (cfg.groups.getD gidx default) po i
              ((cfg.groups.getD gidx default).pageIndices.indexOf i)))
      ∧ (∀ i, i < cfg.dets.length → i ∉ (cfg.groups.getD f default).pageIndices →
          sl.getD i none = sl2.getD i none) := by
  have hwf := cfgWF_buildGroups hg
  have hwf2 : cfgWF cfg2 cfg2.dets.length := by
    unfold cfgWF
    rw [h2g, h2d, hg]
    exact buildGroups_flatten cfg.dets
  have hdet : ∀ i, i < cfg.dets.length → sl.getD i none = some (expectedSlot cfg i) := by
    unfold poolOutcome at hout
    cases hset : poolSettle cfg (initPool cfg cfg.dets.length) sched with
    | none =>
      rw [hset] at hout
      exact Option.noConfusion hout
    | some st1 =>
      rw [hset] at hout
      exact poolSettle_ok_slots hwf hW (poolInv_init cfg cfg.dets.length) hset hout
  have hdet2 : ∀ i, i < cfg2.dets.length → sl2.getD i none = some (expectedSlot cfg2 i) := by
    unfold poolOutcome at hout2
    cases hset : poolSettle cfg2 (initPool cfg2 cfg2.dets.length) sched2 with
    | none =>
      rw [hset] at hout2
      exact Option.noConfusion hout2
    | some st1 =>
      rw [hset] at hout2
      exact poolSettle_ok_slots hwf2 hW2 (poolInv_init cfg2 cfg2.dets.length) hset hout2
  refine ⟨?_, ?_, ?_⟩
  · intro i hi
    rw [hdet i (cfgWF_lt hwf hflt hi), expectedSlot_of_error hwf hflt hi hfail]
  · intro gidx hgl hgne po hpo i hi
    rw [hdet i (cfgWF_lt hwf hgl hi), expectedSlot_of_ok hwf hgl hi hpo]
  · intro i hiN hnot
    rw [hdet i hiN, hdet2 i (by rw [h2d]; exact hiN)]
    congr 1
    apply (expectedSlot_congr h2d h2g ?_).symm
    obtain ⟨gi, hgi, hmem⟩ := cfgWF_cover hwf hiN
    rw [cfgWF_groupIndexOf hwf hgi hmem]
    apply hothers
    intro hef
    rw [hef] at hmem
    exact hnot hmem

/-- Witness for C6 at `cfgIso` (group 1 fails) against the failure-free run
`cfgIsoOk`. -/
theorem claim_C6_witness :
    (∀ i ∈ (cfgIso.groups.getD 1 default).pageIndices,
        slIso.getD i none
          = some (failureResult cfgIso.dets (cfgIso.groups.getD 1 default)
              "generation failed" i
              ((cfgIso.groups.getD 1 default).pageIndices.indexOf i)))
      ∧ (∀ gidx, gidx < cfgIso.groups.length → gidx ≠ 1 →
          ∀ po, cfgIso.outcomes gidx = .ok po →
          ∀ i ∈ (cfgIso.groups.getD gidx default).pageIndices,
            slIso.getD i none
              = some (successResult cfgIso.dets (cfgIso.groups.getD gidx default) po i
                  ((cfgIso.groups.getD gidx default).pageIndices.indexOf i)))
      ∧ (∀ i, i < cfgIso.dets.length → i ∉ (cfgIso.groups.getD 1 default).pageIndices →
          slIso.getD i none = slIsoOk.getD i none) :=
  claim_C6 cfgIso cfgIsoOk 1 "generation failed" schedIso schedIso slIso slIsoOk
    rfl (by decide) (by decide) (by decide) (by decide) rfl rfl
    (by
      intro gidx hgne
      show Except.ok okPipe
        = if gidx == 1 then Except.error "generation failed" else Except.ok okPipe
      rw [if_neg]
      intro hc
      exact hgne (beq_iff_eq.1 hc))
    (by decide) (by decide)

/-- Claim C9: a merge failure is never fatal to `pdfGenerate` — when the merge
oracle rejects, the run still resolves with a report whose per-page results are
exactly those of the same run under any other merge outcome, and whose
merged-document path is null; and `outputMerge` on an existing but image-free
output directory indeed throws. -/
theorem claim_C9 (pageImages : List String) (opts : GenOptions)
    (detect : String → Except String RawDetection) (outcomes : Nat → Except String PipeOut)
    (sched : List Nat) (e : String) (m : Except String String) (r : GenReport)
    (hskip : opts.skipPages < pageImages.length)
    (h : pdfGenerateModel pageImages opts detect outcomes sched (.error e) = some (.ok r)) :
    r.mergedPdfPath = some none
      ∧ (∀ r2, pdfGenerateModel pageImages opts detect outcomes sched m = some (.ok r2) →
          r2.processedPages = r.processedPages)
      ∧ outputMergeCheck true [] = .error "No image files found in output directory" := by
  obtain ⟨dets, st, hdp, hps, hf, hr⟩ := pdfGenerateModel_ok_inv hskip h
  refine ⟨?_, ?_, by decide⟩
  · rw [hr]
    show some (if opts.mergeOutput = true then mergeToPath (.error e) else none) = some none
    cases hm : opts.mergeOutput <;> simp [mergeToPath]
  · intro r2 h2
    obtain ⟨dets2, st2, hdp2, hps2, hf2, hr2⟩ := pdfGenerateModel_ok_inv hskip h2
    rw [hdp] at hdp2
    injection hdp2 with hdets
    subst hdets
    rw [hps] at hps2
    injection hps2 with hst
    subst hst
    rw [hr, hr2]

/-- Witness for C9 at the single-page run whose merge step rejects. -/
theorem claim_C9_witness :
    reportOnePage.mergedPdfPath = some none
      ∧ (∀ r2, pdfGenerateModel ["p0"] optsOnePage detectKitchen (fun _ => .ok okPipe)
            [0, 0, 0] (.ok "merged.pdf") = some (.ok r2) →
          r2.processedPages = reportOnePage.processedPages)
      ∧ outputMergeCheck true [] = .error "No image files found in output directory" :=
  claim_C9 ["p0"] optsOnePage detectKitchen (fun _ => .ok okPipe) [0, 0, 0]
    "merge failed" (.ok "merged.pdf") reportOnePage (by decide) (by decide)

/-- Claim C10: when `skipPages` is at least the number of rendered page images,
`pdfGenerate` returns normally with a report whose `processedPages` is empty
(and which carries none of the later-phase fields), and the result is
completely independent of the detection, pipeline, scheduling and merge
oracles — no heading detection, grouping or worker-pool processing happens. -/
theorem claim_C10 (pageImages : List String) (opts : GenOptions)
    (d1 d2 : String → Except String RawDetection) (o1 o2 : Nat → Except String PipeOut)
    (s1 s2 : List Nat) (m1 m2 : Except String String)
    (h : pageImages.length ≤ opts.skipPages) :
    pdfGenerateModel pageImages opts d1 o1 s1 m1
        = some (.ok { pageImages := pageImages, processedPages := [],
                      skipPagesEcho := none, concurrencyEcho := none,
                      groupsOut := none, mergedPdfPath := none })
      ∧ pdfGenerateModel pageImages opts d1 o1 s1 m1
          = pdfGenerateModel pageImages opts d2 o2 s2 m2 := by
  constructor
  · unfold pdfGenerateModel
    rw [if_pos h]
  · unfold pdfGenerateModel
    rw [if_pos h, if_pos h]

/-- Witness for C10: two pages, skip 5, with thoroughly different oracles. -/
theorem claim_C10_witness :
    pdfGenerateModel ["a", "b"]
        { skipPages := 5, continueOnError := false, concurrency := 2, mergeOutput := true }
        detectKitchen (fun _ => .ok okPipe) [0] (.ok "m.pdf")
      = some (.ok { pageImages := ["a", "b"], processedPages := [],
                    skipPagesEcho := none, concurrencyEcho := none,
                    groupsOut := none, mergedPdfPath := none })
      ∧ pdfGenerateModel ["a", "b"]
          { skipPages := 5, continueOnError := false, concurrency := 2, mergeOutput := true }
          detectKitchen (fun _ => .ok okPipe) [0] (.ok "m.pdf")
        = pdfGenerateModel ["a", "b"]
            { skipPages := 5, continueOnError := false, concurrency := 2, mergeOutput := true }
            (fun _ => .error "ocr down") (fun _ => .error "pipeline down") [] (.error "no merge") :=
  claim_C10 ["a", "b"]
    { skipPages := 5, continueOnError := false, concurrency := 2, mergeOutput := true }
    detectKitchen (fun _ => .error "ocr down") (fun _ => .ok okPipe)
    (fun _ => .error "pipeline down") [0] [] (.ok "m.pdf") (.error "no merge") (by decide)

end Stagify
